import Mathlib

/-!
# An IPC-driven big/small core scheduler

A shallow embedding of `scheduler_big_small.c` / `scheduler_big_small.h`.

* Thread ids are integers, `INVALID_THREAD_ID` is `-1`; core ids are naturals.
* The scheduler object, the parts of the simulator it reads (core count, core tags,
  thread count, the occupancy vector and thread records of the pinned base class) and the
  function-local `static` tables of `periodic()` are the fields of one record `Sched`.
* The vectors `core_info_list` and `m_core_thread_running` have one entry per application
  core; the static tables of `periodic()` have `STAT_SLOTS = 4` entries.  An access outside
  a table, a failed `LOG_ASSERT_ERROR` and a null dereference have no defined result and
  are modelled by `none` (`Run.fault` for the placement scan).
* `float`/`double` values are the rationals they denote; conversions and divisions round to
  the nearest value with a 24-bit (53-bit) significand, ties to even.  The exponent range is
  not modelled.  The `int`/`long long` statistics are unbounded integers (signed overflow is
  undefined in the source).
* `SubsecondTime` values (times, the quantum) are naturals; the class is not among the
  sources.
* The calls into the base class at the end of `periodic`/`threadExit` and all printing are
  outside the embedded methods; of the printing only the reads of entries 0..3 of the two
  vectors are kept, as a bound on the core count.  Where a property speaks of the states the
  scheduler reaches, the part of the base class is a relation on the occupancy (`BaseStep`).
-/

namespace BigSmall

/-! ## Constants and machine arithmetic -/

def INVALID_THREAD_ID : Int := -1

def EMPTY_B : Int := 10000

def EMPTY_S : Int := 0

/-- Number of entries of the static tables `i`, `sum`, `mean`, `sum_var` of `periodic()`. -/
def STAT_SLOTS : Nat := 4

/-- Wrap-around of `UInt64` arithmetic. -/
def u64 (x : Nat) : Nat := x % 2 ^ 64

/-- Subtraction of two `UInt64` values. -/
def subU64 (a b : Nat) : Nat := (u64 a + (2 ^ 64 - u64 b)) % 2 ^ 64

/-- Conversion of a `UInt64` to `int`: the low 32 bits, read in twos complement. -/
def toInt32 (x : Nat) : Int :=
  if x % 2 ^ 32 < 2 ^ 31 then ((x % 2 ^ 32 : Nat) : Int) else ((x % 2 ^ 32 : Nat) : Int) - 2 ^ 32

/-- Nearest rational with a `prec`-bit binary significand, ties to even.  Integers of
magnitude at most `2 ^ prec` are representable and returned as they are. -/
def roundBinary (prec : Nat) (q : ℚ) : ℚ :=
  if q.den = 1 ∧ q.num.natAbs ≤ 2 ^ prec then q
  else
    let n := q.num.natAbs
    let d := q.den
    let l : Int := (Nat.log2 n : Int) - (Nat.log2 d : Int)
    let e : Int := if (n : ℚ) / (d : ℚ) < (2 : ℚ) ^ l then l - 1 else l
    let sh : Int := e - ((prec : Int) - 1)
    let scaled : ℚ := (n : ℚ) / (d : ℚ) / (2 : ℚ) ^ sh
    let f : Int := Int.floor scaled
    let r : ℚ := scaled - (f : ℚ)
    let m : Int :=
      if r < 1 / 2 then f else if 1 / 2 < r then f + 1 else if f % 2 = 0 then f else f + 1
    (if q < 0 then -1 else 1) * (m : ℚ) * (2 : ℚ) ^ sh

/-- Conversion of an integer to `float`. -/
def intToFloat (n : Int) : ℚ := roundBinary 24 (n : ℚ)

/-- Division of two `float` values. -/
def divFloat (a b : ℚ) : ℚ := roundBinary 24 (a / b)

/-- Conversion of a `float` to `int`: truncation toward zero. -/
def floatToInt (q : ℚ) : Int := Int.tdiv q.num (q.den : Int)

/-- The value of `(long long) pow(x, 2)`: the square, rounded to `double`. -/
def powTwo (x : Int) : Int := floatToInt (roundBinary 53 ((x : ℚ) * (x : ℚ)))

/-! ## Data model -/

/-- The record `core_info` of the header; a pointer field holds whether it is non-null. -/
structure core_info where
  s_time : Bool
  l_time : Nat
  s_instructions : Bool
  l_instructions : Nat
  clock : Bool
  ipc : Int

/-- The initial record `{NULL, 0, NULL, 0, NULL, 0}` of the constructor. -/
def info_init : core_info :=
  { s_time := false, l_time := 0, s_instructions := false, l_instructions := 0,
    clock := false, ipc := 0 }

/-- The scheduler object together with what it reads from the simulator. -/
structure Sched where
  /-- The value of `Sim()->getConfig()->getApplicationCores()`. -/
  appCores : Nat
  /-- The answer of the tags manager to `hasTag(core, coreId, big)`. -/
  hasTagBig : Nat → Bool
  /-- The value of `Sim()->getThreadManager()->getNumThreads()`. -/
  numThreads : Nat
  /-- The quantum `m_quantum` of the base class. -/
  m_quantum : Nat
  /-- The occupancy vector of the base class, one entry per application core. -/
  m_core_thread_running : Nat → Int
  /-- The value of `m_thread_info[thread].isRunning()` of the base class. -/
  isRunning : Int → Bool
  /-- The affinity set held in `m_thread_info[thread]` of the base class. -/
  affinity : Int → Finset Nat
  m_next_core : Nat
  m_num_big_cores : Nat
  m_mask_big : Finset Nat
  m_mask_small : Finset Nat
  /-- The vector `core_info_list`, one entry per application core. -/
  core_info_list : Nat → core_info
  m_last_reshuffle : Nat
  m_rng : Nat
  m_thread_isbig : Int → Bool
  /-- The static table `i` of `periodic()`. -/
  stat_i : Nat → Int
  /-- The static table `sum` of `periodic()`. -/
  stat_sum : Nat → Int
  /-- The static table `mean` of `periodic()`. -/
  stat_mean : Nat → ℚ
  /-- The static table `sum_var` of `periodic()`. -/
  stat_sum_var : Nat → Int

/-- Counter values and lookups the performance model offers during one call. -/
structure Telemetry where
  /-- Whether the metric object `elapsed_time` of the core is found. -/
  has_time : Nat → Bool
  /-- Whether the metric object `instruction_count` of the core is found. -/
  has_instructions : Nat → Bool
  /-- Whether `getDvfsManager()->getCoreDomain(core)` is non-null. -/
  has_clock : Nat → Bool
  /-- The value of `s_time->recordMetric()` of a core. -/
  elapsed_time : Nat → Nat
  /-- The value of `s_instructions->recordMetric()` of a core. -/
  instruction_count : Nat → Nat
  /-- The value of `SubsecondTime::divideRounded(SubsecondTime::FS(d_time), clock)` for a core
  and a time difference. -/
  divideRounded : Nat → Nat → Nat

/-- Outcome of a loop that need not terminate, run with a bound on its iterations. -/
inductive Run (α : Type) where
  | done (a : α)
  | fault
  | fuelOut

/-! ## Initial placement -/

/-- The method `SchedulerBigSmall::getNextCore`. -/
def getNextCore (appCores : Nat) (core_id : Nat) : Nat :=
  if core_id + 1 ≥ appCores then (core_id + 1) % appCores + 1 else core_id + 1

/-- The `do ... while` loop of `getFreeCore`, at most `fuel` iterations. -/
def getFreeCoreLoop (s : Sched) (core_first : Nat) : Nat → Nat → Run Nat
  | 0, _ => Run.fuelOut
  | fuel + 1, core_next =>
    if s.appCores ≤ core_next then Run.fault
    else if s.m_core_thread_running core_next = INVALID_THREAD_ID then Run.done core_next
    else if getNextCore s.appCores core_next ≠ core_first then
      getFreeCoreLoop s core_first fuel (getNextCore s.appCores core_next)
    else Run.done core_first

/-- The method `SchedulerBigSmall::getFreeCore`. -/
def getFreeCore (s : Sched) (fuel : Nat) (core_first : Nat) : Run Nat :=
  getFreeCoreLoop s core_first fuel core_first

/-- The method `SchedulerBigSmall::threadSetInitialAffinity`; `setAffinitySingle` makes the affinity
set of the thread the single chosen core. -/
def threadSetInitialAffinity (s : Sched) (fuel : Nat) (thread_id : Int) : Run Sched :=
  match getFreeCore s fuel s.m_next_core with
  | Run.done core_id =>
    Run.done { s with
      m_next_core := getNextCore s.appCores core_id
      affinity := Function.update s.affinity thread_id {core_id} }
  | Run.fault => Run.fault
  | Run.fuelOut => Run.fuelOut

/-- Modelled from the spec: the pinned base scheduler (`SchedulerPinnedBase`, not among the
sources) keeps the occupancy vector `m_core_thread_running` and starts a created thread on
the core it was pinned to, which marks that core occupied. -/
def markRunning (s : Sched) (thread_id : Int) (core_id : Nat) : Sched :=
  { s with
    m_core_thread_running := Function.update s.m_core_thread_running core_id thread_id
    isRunning := Function.update s.isRunning thread_id true }

/-- Modelled from the spec: creation of one thread by the base class, which performs the
initial placement with `threadSetInitialAffinity` and then runs the thread on the chosen
core.  Returns the new state and the chosen core. -/
def threadCreate (s : Sched) (fuel : Nat) (thread_id : Int) : Run (Sched × Nat) :=
  match getFreeCore s fuel s.m_next_core with
  | Run.done core_id =>
    match threadSetInitialAffinity s fuel thread_id with
    | Run.done s1 => Run.done (markRunning s1 thread_id core_id, core_id)
    | Run.fault => Run.fault
    | Run.fuelOut => Run.fuelOut
  | Run.fault => Run.fault
  | Run.fuelOut => Run.fuelOut

/-- Modelled from the spec: creation of the threads `first, first + 1, ..., first + k - 1`
in this order; returns the final state and the cores chosen, in creation order. -/
def createThreads (fuel : Nat) : Nat → Sched → Nat → Run (Sched × List Nat)
  | 0, s, _ => Run.done (s, [])
  | k + 1, s, first =>
    match threadCreate s fuel (first : Int) with
    | Run.done (s1, c) =>
      match createThreads fuel k s1 (first + 1) with
      | Run.done (s2, cs) => Run.done (s2, c :: cs)
      | Run.fault => Run.fault
      | Run.fuelOut => Run.fuelOut
    | Run.fault => Run.fault
    | Run.fuelOut => Run.fuelOut

/-! ## Construction -/

/-- State after the member initialisers of the constructor and the statements before its
loop; the base class starts with every core free and no thread running. -/
def ctorInit (appCores : Nat) (hasTagBig : Nat → Bool) (quantum : Nat) (seed : Nat) : Sched :=
  { appCores := appCores
    hasTagBig := hasTagBig
    numThreads := 0
    m_quantum := quantum
    m_core_thread_running := fun _ => INVALID_THREAD_ID
    isRunning := fun _ => false
    affinity := fun _ => ∅
    m_next_core := 0
    m_num_big_cores := 0
    m_mask_big := ∅
    m_mask_small := ∅
    core_info_list := fun _ => info_init
    m_last_reshuffle := 0
    m_rng := seed
    m_thread_isbig := fun _ => false
    stat_i := fun _ => 0
    stat_sum := fun _ => 0
    stat_mean := fun _ => 0
    stat_sum_var := fun _ => 0 }

/-- Body of the constructor loop for one core. -/
def ctorStep (s : Sched) (coreId : Nat) : Sched :=
  if s.hasTagBig coreId then
    { s with
      m_num_big_cores := s.m_num_big_cores + 1
      m_mask_big := insert coreId s.m_mask_big
      core_info_list := Function.update s.core_info_list coreId info_init }
  else
    { s with
      m_mask_small := insert coreId s.m_mask_small
      core_info_list := Function.update s.core_info_list coreId info_init }

/-- The method `SchedulerBigSmall::SchedulerBigSmall`; `seed` is the value of `rng_seed(42)`. -/
def SchedulerBigSmall (appCores : Nat) (hasTagBig : Nat → Bool) (quantum : Nat) (seed : Nat) :
    Sched :=
  { (List.range appCores).foldl ctorStep (ctorInit appCores hasTagBig quantum seed) with
    m_next_core := 0 }

/-! ## Class changes -/

/-- The method `SchedulerBigSmall::moveToSmall`; `threadSetAffinity` records the mask for the thread. -/
def moveToSmall (s : Sched) (thread_id : Int) : Sched :=
  if thread_id = INVALID_THREAD_ID then s
  else
    { s with
      affinity := Function.update s.affinity thread_id s.m_mask_small
      m_thread_isbig := Function.update s.m_thread_isbig thread_id false }

/-- The method `SchedulerBigSmall::moveToBig`. -/
def moveToBig (s : Sched) (thread_id : Int) : Sched :=
  if thread_id = INVALID_THREAD_ID then s
  else
    { s with
      affinity := Function.update s.affinity thread_id s.m_mask_big
      m_thread_isbig := Function.update s.m_thread_isbig thread_id true }

/-! ## Reactive promotion -/

/-- The list `eligible` built by `pickBigThread`, in increasing thread id order. -/
def eligible (s : Sched) : List Int :=
  ((List.range s.numThreads).map (fun (t : Nat) => (t : Int))).filter
    (fun t => s.m_thread_isbig t == false && s.isRunning t)

/-- The method `SchedulerBigSmall::pickBigThread`; `rng_next` (of `rng.h`, not among the sources) maps
the generator state to the value it returns and the state it leaves. -/
def pickBigThread (rng_next : Nat → Nat × Nat) (s : Sched) : Sched :=
  if 0 < (eligible s).length then
    moveToBig { s with m_rng := (rng_next s.m_rng).2 }
      ((eligible s).getD ((rng_next s.m_rng).1 % (eligible s).length) INVALID_THREAD_ID)
  else s

/-- The loop of `threadExit` that clears the IPC of the core the thread runs on. -/
def clearIpcLoop (s : Sched) (thread_id : Int) : List Nat → Sched
  | [] => s
  | coreId :: rest =>
    if s.m_core_thread_running coreId = thread_id then
      { s with
        core_info_list :=
          Function.update s.core_info_list coreId { s.core_info_list coreId with ipc := 0 } }
    else clearIpcLoop s thread_id rest

/-- The method `SchedulerBigSmall::threadExit`, up to the call into the base class. -/
def threadExit (rng_next : Nat → Nat × Nat) (s : Sched) (thread_id : Int) : Sched :=
  if (clearIpcLoop s thread_id (List.range s.appCores)).m_thread_isbig thread_id then
    pickBigThread rng_next (clearIpcLoop s thread_id (List.range s.appCores))
  else clearIpcLoop s thread_id (List.range s.appCores)

/-! ## Performance sampling and the periodic policy -/

/-- The method `SchedulerBigSmall::get_core_ipc`. -/
def get_core_ipc (s : Sched) (tel : Telemetry) (coreId : Nat) : Option Sched :=
  let ci := s.core_info_list coreId
  if ci.s_time = false then
    if tel.has_time coreId && tel.has_instructions coreId && tel.has_clock coreId then
      some { s with
        core_info_list := Function.update s.core_info_list coreId
          { ci with
            s_time := true, s_instructions := true, clock := true
            l_time := u64 (tel.elapsed_time coreId)
            l_instructions := u64 (tel.instruction_count coreId) } }
    else none
  else if ci.s_instructions = false ∨ ci.clock = false then none
  else
    let d_instructions := subU64 (tel.instruction_count coreId) ci.l_instructions
    let d_time := subU64 (tel.elapsed_time coreId) ci.l_time
    let d_cycles := u64 (tel.divideRounded coreId d_time)
    some { s with
      core_info_list := Function.update s.core_info_list coreId
        { ci with
          ipc := if d_cycles ≠ 0 then toInt32 (u64 (d_instructions * 1000) / d_cycles) else ci.ipc
          l_time := u64 (tel.elapsed_time coreId)
          l_instructions := u64 (tel.instruction_count coreId) } }

/-- Update of the running statistics of an occupied core, after its IPC was sampled. -/
def updateStats (s : Sched) (coreId : Nat) : Option Sched :=
  if STAT_SLOTS ≤ coreId then none
  else
    let ipc := (s.core_info_list coreId).ipc
    let i := s.stat_i coreId + 1
    let sum := s.stat_sum coreId + ipc
    let mean := divFloat (intToFloat sum) (intToFloat i)
    some { s with
      stat_i := Function.update s.stat_i coreId i
      stat_sum := Function.update s.stat_sum coreId sum
      stat_mean := Function.update s.stat_mean coreId mean
      stat_sum_var :=
        Function.update s.stat_sum_var coreId (s.stat_sum_var coreId + powTwo (ipc - floatToInt mean)) }

/-- Body of the first loop of `periodic()` for one core. -/
def sampleStep (tel : Telemetry) (s : Sched) (coreId : Nat) : Option Sched :=
  if s.m_core_thread_running coreId = INVALID_THREAD_ID then
    some { s with
      core_info_list :=
        Function.update s.core_info_list coreId { s.core_info_list coreId with ipc := 0 } }
  else
    match get_core_ipc s tel coreId with
    | none => none
    | some s1 => updateStats s1 coreId

/-- The first loop of `periodic()` over the given cores. -/
def sampleLoop (tel : Telemetry) : Sched → List Nat → Option Sched
  | s, [] => some s
  | s, coreId :: rest =>
    match sampleStep tel s coreId with
    | none => none
    | some s1 => sampleLoop tel s1 rest

/-- The first loop of `periodic()`: every core is sampled or cleared. -/
def sampleCores (s : Sched) (tel : Telemetry) : Option Sched :=
  sampleLoop tel s (List.range s.appCores)

/-- The locals `big_min_ipc`, `big_core`, `small_max_ipc`, `small_core` of `periodic()`. -/
structure Sel where
  big_min_ipc : Int
  big_core : Nat
  small_max_ipc : Int
  small_core : Nat

/-- Body of the second loop of `periodic()` for one core. -/
def scanStep (s : Sched) (acc : Sel) (coreId : Nat) : Sel :=
  let isBig := s.hasTagBig coreId
  let acc1 : Sel :=
    if isBig = true ∧ (s.core_info_list coreId).ipc < acc.big_min_ipc
        ∧ s.m_core_thread_running coreId ≠ INVALID_THREAD_ID then
      { acc with big_min_ipc := (s.core_info_list coreId).ipc, big_core := coreId }
    else acc
  if isBig = false ∧ (s.core_info_list coreId).ipc > acc1.small_max_ipc
      ∧ s.m_core_thread_running coreId ≠ INVALID_THREAD_ID then
    { acc1 with small_max_ipc := (s.core_info_list coreId).ipc, small_core := coreId }
  else acc1

/-- The second loop of `periodic()`, started from the sentinels and core 0. -/
def scanCores (s : Sched) : Sel :=
  (List.range s.appCores).foldl (scanStep s)
    { big_min_ipc := EMPTY_B, big_core := 0, small_max_ipc := EMPTY_S, small_core := 0 }

/-- The local `thread_core_big` when the decision is taken. -/
def bigVictim (s : Sched) : Int :=
  if (scanCores s).big_min_ipc = EMPTY_B then INVALID_THREAD_ID
  else s.m_core_thread_running (scanCores s).big_core

/-- The local `thread_core_small` when the decision is taken. -/
def smallCandidate (s : Sched) : Int :=
  if (scanCores s).small_max_ipc = EMPTY_S then INVALID_THREAD_ID
  else s.m_core_thread_running (scanCores s).small_core

/-- The local `big_min_ipc` when the decision is taken. -/
def bigMinIpc (s : Sched) : Int :=
  if (scanCores s).big_min_ipc = EMPTY_B then 0 else (scanCores s).big_min_ipc

/-- The local `small_max_ipc` when the decision is taken. -/
def smallMaxIpc (s : Sched) : Int :=
  if (scanCores s).small_max_ipc = EMPTY_S then 10000 else (scanCores s).small_max_ipc

/-- The part of `periodic()` after the first loop: selection, the reads of entries 0..3 for
printing, the decision, the class changes. -/
def decision (s : Sched) : Option Sched :=
  if s.appCores ≤ (scanCores s).big_core ∨ s.appCores ≤ (scanCores s).small_core
      ∨ s.appCores ≤ 3 then none
  else if STAT_SLOTS ≤ (scanCores s).big_core then none
  else if intToFloat (bigMinIpc s) < s.stat_mean (scanCores s).big_core then
    if STAT_SLOTS ≤ (scanCores s).small_core then none
    else if intToFloat (smallMaxIpc s) > s.stat_mean (scanCores s).small_core then
      some (moveToBig (moveToSmall s (bigVictim s)) (smallCandidate s))
    else if intToFloat (smallMaxIpc s) < s.stat_mean (scanCores s).small_core then
      some (moveToSmall s (bigVictim s))
    else some s
  else some s

/-- The method `SchedulerBigSmall::periodic`, up to the call into the base class. -/
def periodic (s : Sched) (tel : Telemetry) (time : Nat) : Option Sched :=
  if time > s.m_last_reshuffle + s.m_quantum then
    match sampleCores s tel with
    | none => none
    | some s1 =>
      match decision s1 with
      | none => none
      | some s2 => some { s2 with m_last_reshuffle := time }
  else some s

/-! ## Concrete states -/

/-- Tagging of scenario A: cores 0 and 1 are big, the others small. -/
def tagsA (c : Nat) : Bool := decide (c < 2)

/-- A freshly constructed scheduler for four cores, two of them big. -/
def fresh4 : Sched := SchedulerBigSmall 4 tagsA 1000 0

/-- Two cores, thread 1 runs on core 1, core 0 is free again, the cursor stands at 1: the
state after two threads were created and the first one has ended. -/
def twoCoresZeroFree : Sched :=
  { SchedulerBigSmall 2 tagsA 1000 0 with
    m_next_core := 1
    m_core_thread_running := fun c => if c = 1 then 1 else INVALID_THREAD_ID
    isRunning := fun t => decide (t = 1) }

/-- Two cores, both occupied, the cursor at its initial value 0. -/
def twoCoresFull : Sched :=
  { SchedulerBigSmall 2 tagsA 1000 0 with
    m_core_thread_running := fun c => (c : Int)
    isRunning := fun t => decide (t = 0 ∨ t = 1) }

/-- Four cores, the first three occupied in creation order, the cursor at core 3. -/
def threePlaced : Sched :=
  { fresh4 with
    m_next_core := 3
    m_core_thread_running := fun c => if c < 3 then (c : Int) else INVALID_THREAD_ID
    isRunning := fun t => decide (0 ≤ t ∧ t < 3) }

/-- One core, nothing placed yet. -/
def fresh1 : Sched := SchedulerBigSmall 1 tagsA 1000 0

/-- Generator step used in the concrete states, in the style of `drand48`: the value
returned and the state left. -/
def rngStep (st : Nat) : Nat × Nat :=
  ((25214903917 * st + 11) % 2 ^ 48 / 2 ^ 16, (25214903917 * st + 11) % 2 ^ 48)

/-- Scenario D: four threads run on the four cores, thread 0 holds big status, threads 1, 2
and 3 are small. -/
def scenarioD : Sched :=
  { fresh4 with
    numThreads := 4
    m_rng := 2766
    m_core_thread_running := fun c => if c < 4 then (c : Int) else INVALID_THREAD_ID
    isRunning := fun t => decide (0 ≤ t ∧ t < 4)
    m_thread_isbig := fun t => decide (t = 0)
    affinity := fun t => if t = 0 then {0, 1} else {2, 3} }

/-- Four cores (0 and 1 big), thread 0 on core 0 with big status, thread 2 on core 2 with
small status, cores 1 and 3 free.  Both occupied cores were sampled once before, with the
IPC given; the last action was at time 0. -/
def twoThreads (ipc0 ipc2 : Int) : Sched :=
  { fresh4 with
    numThreads := 3
    m_core_thread_running := fun c => if c = 0 then 0 else if c = 2 then 2 else INVALID_THREAD_ID
    isRunning := fun t => decide (t = 0 ∨ t = 2)
    m_thread_isbig := fun t => decide (t = 0)
    affinity := fun t => if t = 0 then {0, 1} else {2, 3}
    core_info_list := fun c =>
      { s_time := true, l_time := 0, s_instructions := true, l_instructions := 0, clock := true,
        ipc := if c = 0 then ipc0 else if c = 2 then ipc2 else 0 }
    stat_i := fun c => if c = 0 ∨ c = 2 then 1 else 0
    stat_sum := fun c => if c = 0 then ipc0 else if c = 2 then ipc2 else 0
    stat_mean := fun c => if c = 0 then (ipc0 : ℚ) else if c = 2 then (ipc2 : ℚ) else 0 }

/-- Telemetry of one tick: 1000 cycles have passed on every core, core 0 has retired
`instr0` instructions and core 2 `instr2`. -/
def tick (instr0 instr2 : Nat) : Telemetry :=
  { has_time := fun _ => true
    has_instructions := fun _ => true
    has_clock := fun _ => true
    elapsed_time := fun _ => 1000
    instruction_count := fun c => if c = 0 then instr0 else if c = 2 then instr2 else 0
    divideRounded := fun _ d => d }

/-! ## Notions used to state the properties -/

/-- The core has a running thread. -/
def Occupied (s : Sched) (c : Nat) : Prop := s.m_core_thread_running c ≠ INVALID_THREAD_ID

/-- Core `b` is an occupied big core whose IPC is minimal among the occupied big cores, the
one of lowest id among those. -/
def IsMinBigCore (s : Sched) (b : Nat) : Prop :=
  b < s.appCores ∧ s.hasTagBig b = true ∧ Occupied s b
  ∧ (∀ c, c < s.appCores → s.hasTagBig c = true → Occupied s c →
      (s.core_info_list b).ipc ≤ (s.core_info_list c).ipc)
  ∧ (∀ c, c < b → s.hasTagBig c = true → Occupied s c →
      (s.core_info_list b).ipc < (s.core_info_list c).ipc)

/-- Core `c` is an occupied small core whose IPC is maximal among the occupied small cores,
the one of lowest id among those. -/
def IsMaxSmallCore (s : Sched) (c : Nat) : Prop :=
  c < s.appCores ∧ s.hasTagBig c = false ∧ Occupied s c
  ∧ (∀ d, d < s.appCores → s.hasTagBig d = false → Occupied s d →
      (s.core_info_list d).ipc ≤ (s.core_info_list c).ipc)
  ∧ (∀ d, d < c → s.hasTagBig d = false → Occupied s d →
      (s.core_info_list d).ipc < (s.core_info_list c).ipc)

/-- The locals of the second loop of `periodic()` after the cores below `n` were scanned. -/
def scanUpTo (s : Sched) (n : Nat) : Sel :=
  (List.range n).foldl (scanStep s)
    { big_min_ipc := EMPTY_B, big_core := 0, small_max_ipc := EMPTY_S, small_core := 0 }

/-- The state the first loop of `periodic()` leaves (the state itself if the loop aborts). -/
def sampled (s : Sched) (tel : Telemetry) : Sched := (sampleCores s tel).getD s

instance decidableOccupied (s : Sched) (c : Nat) : Decidable (Occupied s c) := by
  unfold Occupied
  infer_instance

instance decidableIsMinBigCore (s : Sched) (b : Nat) : Decidable (IsMinBigCore s b) := by
  unfold IsMinBigCore
  infer_instance

instance decidableIsMaxSmallCore (s : Sched) (c : Nat) : Decidable (IsMaxSmallCore s c) := by
  unfold IsMaxSmallCore
  infer_instance

/-- The state `s` with the sampling data (per-core records and running statistics) of `t`. -/
def withSamples (s t : Sched) : Sched :=
  { s with
    core_info_list := t.core_info_list
    stat_i := t.stat_i
    stat_sum := t.stat_sum
    stat_mean := t.stat_mean
    stat_sum_var := t.stat_sum_var }

/-- What the decision of `periodic()` does to a sampled state, when all its reads are inside
their tables. -/
def policy (s : Sched) : Sched :=
  if intToFloat (bigMinIpc s) < s.stat_mean (scanCores s).big_core then
    if intToFloat (smallMaxIpc s) > s.stat_mean (scanCores s).small_core then
      moveToBig (moveToSmall s (bigVictim s)) (smallCandidate s)
    else if intToFloat (smallMaxIpc s) < s.stat_mean (scanCores s).small_core then
      moveToSmall s (bigVictim s)
    else s
  else s

/-- The state `twoThreads ipc0 ipc2` after thread 0 has left core 0: only small core 2 has
a running thread; the statistics of core 0 are what its earlier samples left. -/
def smallOnly (ipc0 ipc2 : Int) : Sched :=
  { twoThreads ipc0 ipc2 with
    m_core_thread_running := fun c => if c = 2 then 2 else INVALID_THREAD_ID
    isRunning := fun t => decide (t = 2) }

/-- The state `twoThreads ipc0 ipc2` after thread 2 has left core 2: only big core 0 has a
running thread. -/
def bigOnly (ipc0 ipc2 : Int) : Sched :=
  { twoThreads ipc0 ipc2 with
    m_core_thread_running := fun c => if c = 0 then 0 else INVALID_THREAD_ID
    isRunning := fun t => decide (t = 0) }

/-- Five cores, thread 0 runs on core 4, the other cores are free. -/
def fiveCores : Sched :=
  { SchedulerBigSmall 5 tagsA 1000 0 with
    numThreads := 1
    m_core_thread_running := fun c => if c = 4 then 0 else INVALID_THREAD_ID
    isRunning := fun t => decide (t = 0) }

/-! ## The base scheduler and the reachable states -/

/-- Modelled from the spec: what the pinned base scheduler (`SchedulerPinnedBase`, not among
the sources) keeps true of the occupancy whenever one of its calls has returned.  A running
thread runs on a core that its affinity permits (the affinity is the set of cores a thread
is permitted to execute on, and a change of affinity takes effect on the occupancy at once),
and the thread on a core is one of the threads created so far.  The occupancy vector has one
entry per core, so at most one thread runs per core. -/
def BaseOK (s : Sched) : Prop :=
  (∀ t : Int, s.isRunning t = true →
      ∃ c, c < s.appCores ∧ s.m_core_thread_running c = t ∧ c ∈ s.affinity t)
  ∧ (∀ c, c < s.appCores → s.m_core_thread_running c ≠ INVALID_THREAD_ID →
      0 ≤ s.m_core_thread_running c ∧ s.m_core_thread_running c < (s.numThreads : Int))

/-- Modelled from the spec: the part of the base class in an event.  It changes nothing but
the occupancy vector and the running status of threads, and leaves them as `BaseOK` says. -/
def BaseStep (s s1 : Sched) : Prop :=
  s1 = { s with m_core_thread_running := s1.m_core_thread_running, isRunning := s1.isRunning }
  ∧ BaseOK s1

/-- Modelled from the spec: the states reachable from construction by thread creations,
periodic ticks and thread exits, each completed by the part of the base class.  Thread ids
are handed out in creation order, so the thread created next has the id `numThreads`. -/
inductive Reachable : Sched → Prop where
  | construct (n : Nat) (tag : Nat → Bool) (q seed : Nat) :
      Reachable (SchedulerBigSmall n tag q seed)
  | create (s s1 s2 : Sched) (fuel : Nat) :
      Reachable s →
      threadSetInitialAffinity s fuel (s.numThreads : Int) = Run.done s1 →
      BaseStep { s1 with numThreads := s.numThreads + 1 } s2 →
      Reachable s2
  | tick (s s1 s2 : Sched) (tel : Telemetry) (time : Nat) :
      Reachable s →
      periodic s tel time = some s1 →
      BaseStep s1 s2 →
      Reachable s2
  | exit (s s2 : Sched) (rng_next : Nat → Nat × Nat) (thread_id : Int) :
      Reachable s →
      BaseStep (threadExit rng_next s thread_id) s2 →
      Reachable s2

/-- The ids of the running threads whose class flag is big. -/
def bigRunning (s : Sched) : Finset Nat :=
  (Finset.range s.numThreads).filter
    (fun t => s.isRunning (t : Int) = true ∧ s.m_thread_isbig (t : Int) = true)

/-- Counter readings of one tick: `elapsed` cycles have passed on every core since the start,
and the cores 0, 1 and 2 have retired `i0`, `i1` and `i2` instructions since the start. -/
def readings (elapsed i0 i1 i2 : Nat) : Telemetry :=
  { has_time := fun _ => true
    has_instructions := fun _ => true
    has_clock := fun _ => true
    elapsed_time := fun _ => elapsed
    instruction_count := fun c => if c = 0 then i0 else if c = 1 then i1 else if c = 2 then i2 else 0
    divideRounded := fun _ d => d }

/-- The state after thread `t` was created in state `s`, pinned to core `c` by
`threadSetInitialAffinity` and started there by the base class; the threads `0 .. t` run. -/
def startedOn (s : Sched) (t c : Nat) : Sched :=
  { s with
    m_next_core := getNextCore s.appCores c
    affinity := Function.update s.affinity (t : Int) {c}
    numThreads := s.numThreads + 1
    m_core_thread_running := Function.update s.m_core_thread_running c (t : Int)
    isRunning := fun u => decide (0 ≤ u ∧ u ≤ (t : Int)) }

/-- Three threads created on the fresh four cores: thread `j` runs on core `j`. -/
def threeStarted : Sched := startedOn (startedOn (startedOn fresh4 0 0) 1 1) 2 2

/-- The state `threeStarted` after its first tick, at time 2000. -/
def afterTickA : Sched :=
  { sampled threeStarted (readings 1000 0 0 0) with m_last_reshuffle := 2000 }

/-- The state `afterTickA` after the tick at time 4000, in which the cores 0, 1 and 2 have
IPC 900, 900 and 300. -/
def afterTickB : Sched :=
  { sampled afterTickA (readings 2000 900 900 300) with m_last_reshuffle := 4000 }

/-- The state `afterTickB` after the policy of the tick at time 6000, in which the cores 0, 1
and 2 have IPC 0, 900 and 600: thread 0 is demoted and thread 2 promoted. -/
def afterTickC : Sched :=
  { moveToBig (moveToSmall (sampled afterTickB (readings 3000 900 1800 900)) 0) 2 with
    m_last_reshuffle := 6000 }

/-- The state `afterTickC` after the base class has moved the two threads: thread 2 runs on
big core 0 and thread 0 on small core 2. -/
def afterSwap : Sched :=
  { afterTickC with
    m_core_thread_running := fun c =>
      if c = 0 then 2 else if c = 1 then 1 else if c = 2 then 0 else INVALID_THREAD_ID }

end BigSmall

/-! # Properties -/

namespace BigSmall

/-! ## Construction -/

theorem ctor_fold_frame (l : List Nat) (s : Sched) :
    (l.foldl ctorStep s).appCores = s.appCores
    ∧ (l.foldl ctorStep s).m_core_thread_running = s.m_core_thread_running
    ∧ (l.foldl ctorStep s).hasTagBig = s.hasTagBig
    ∧ (l.foldl ctorStep s).m_thread_isbig = s.m_thread_isbig := by
  induction l generalizing s with
  | nil => simp
  | cons c l ih =>
    rw [List.foldl_cons]
    obtain ⟨h1, h2, h3, h4⟩ := ih (ctorStep s c)
    rw [h1, h2, h3, h4]
    unfold ctorStep
    split <;> simp

theorem ctor_appCores (n : Nat) (tag : Nat → Bool) (q seed : Nat) :
    (SchedulerBigSmall n tag q seed).appCores = n := by
  simp [SchedulerBigSmall, (ctor_fold_frame _ _).1, ctorInit]

theorem ctor_running (n : Nat) (tag : Nat → Bool) (q seed : Nat) (c : Nat) :
    (SchedulerBigSmall n tag q seed).m_core_thread_running c = INVALID_THREAD_ID := by
  simp [SchedulerBigSmall, (ctor_fold_frame _ _).2.1, ctorInit]

theorem ctor_next_core (n : Nat) (tag : Nat → Bool) (q seed : Nat) :
    (SchedulerBigSmall n tag q seed).m_next_core = 0 := rfl

/-! ## Initial placement -/

theorem getNextCore_lt (n c : Nat) (h : c + 1 < n) : getNextCore n c = c + 1 := by
  unfold getNextCore
  rw [if_neg (by omega)]

theorem getNextCore_last (n : Nat) : getNextCore (n + 1) n = 1 := by
  unfold getNextCore
  simp

theorem getFreeCore_free (s : Sched) (fuel c : Nat) (hc : c < s.appCores)
    (hfree : s.m_core_thread_running c = INVALID_THREAD_ID) :
    getFreeCore s (fuel + 1) c = Run.done c := by
  unfold getFreeCore getFreeCoreLoop
  rw [if_neg (by omega), if_pos hfree]

theorem threadCreate_free (s : Sched) (fuel : Nat) (t : Int)
    (hc : s.m_next_core < s.appCores)
    (hfree : s.m_core_thread_running s.m_next_core = INVALID_THREAD_ID) :
    threadCreate s (fuel + 1) t =
      Run.done (markRunning
        { s with
          m_next_core := getNextCore s.appCores s.m_next_core
          affinity := Function.update s.affinity t {s.m_next_core} } t s.m_next_core,
        s.m_next_core) := by
  unfold threadCreate threadSetInitialAffinity
  rw [getFreeCore_free s fuel _ hc hfree]

theorem createThreads_from (n fuel : Nat) :
    ∀ (k first : Nat) (s : Sched), s.appCores = n → first + k ≤ n →
      (0 < k → s.m_next_core = first) →
      (∀ c, first ≤ c → s.m_core_thread_running c = INVALID_THREAD_ID) →
      ∃ s1, createThreads (fuel + 1) k s first = Run.done (s1, List.range' first k)
        ∧ (∀ j, first ≤ j → j < first + k →
            s1.affinity (j : Int) = {j} ∧ s1.m_core_thread_running j = (j : Int))
        ∧ (∀ j, j < first →
            s1.affinity (j : Int) = s.affinity (j : Int)
            ∧ s1.m_core_thread_running j = s.m_core_thread_running j) := by
  intro k
  induction k with
  | zero =>
    intro first s _ _ _ _
    exact ⟨s, rfl, fun j h1 h2 => by omega, fun j _ => ⟨rfl, rfl⟩⟩
  | succ k ih =>
    intro first s hn hle hcur hfree
    have hcur1 : s.m_next_core = first := hcur (by omega)
    have hlt : s.m_next_core < s.appCores := by omega
    have hstep := threadCreate_free s fuel (first : Int) hlt
      (by rw [hcur1]; exact hfree first le_rfl)
    obtain ⟨s2, hs2, hprop, hold⟩ := ih (first + 1)
      (markRunning
        { s with
          m_next_core := getNextCore s.appCores s.m_next_core
          affinity := Function.update s.affinity (first : Int) {s.m_next_core} }
        (first : Int) s.m_next_core)
      (by simp [markRunning, hn]) (by omega)
      (by
        intro hk
        simp only [markRunning]
        rw [hcur1, hn]
        exact getNextCore_lt n first (by omega))
      (by
        intro c hc
        simp only [markRunning]
        rw [hcur1, Function.update_noteq (by omega)]
        exact hfree c (by omega))
    refine ⟨s2, ?_, ?_, ?_⟩
    · unfold createThreads
      rw [hstep]
      simp only []
      rw [hs2, hcur1]
      rfl
    · intro j hj1 hj2
      by_cases hj : j = first
      · subst hj
        obtain ⟨ha, hr⟩ := hold j (by omega)
        rw [ha, hr]
        simp [markRunning, hcur1]
      · exact hprop j (by omega) (by omega)
    · intro j hj
      obtain ⟨ha, hr⟩ := hold j (by omega)
      rw [ha, hr]
      have hne : (j : Int) ≠ (first : Int) := by omega
      simp only [markRunning]
      rw [hcur1, Function.update_noteq hne, Function.update_noteq (by omega)]
      exact ⟨rfl, rfl⟩

/-- C5 (code at the failing input): with two cores, core 0 free, core 1 occupied and the
cursor at 1, `getFreeCore` returns core 1, which has a running thread, and
`threadSetInitialAffinity` pins the new thread there: the wrap of `getNextCore` leads from
core 1 to core 1 and never visits core 0. -/
theorem getFreeCore_misses_free_core_zero :
    twoCoresZeroFree.appCores = 2
    ∧ twoCoresZeroFree.m_next_core = 1
    ∧ twoCoresZeroFree.m_core_thread_running 0 = INVALID_THREAD_ID
    ∧ twoCoresZeroFree.m_core_thread_running 1 ≠ INVALID_THREAD_ID
    ∧ ∀ fuel : Nat,
        getFreeCore twoCoresZeroFree (fuel + 1) 1 = Run.done 1
        ∧ ∃ s1, threadSetInitialAffinity twoCoresZeroFree (fuel + 1) 2 = Run.done s1
            ∧ s1.affinity 2 = {1} := by
  refine ⟨rfl, rfl, rfl, by decide, fun fuel => ⟨rfl, _, rfl, ?_⟩⟩
  simp
  rfl

theorem twoCoresFull_loop (fuel : Nat) :
    getFreeCoreLoop twoCoresFull 0 fuel 1 = Run.fuelOut := by
  induction fuel with
  | zero => rfl
  | succ fuel ih =>
    have h : getFreeCoreLoop twoCoresFull 0 (fuel + 1) 1
        = getFreeCoreLoop twoCoresFull 0 fuel 1 := rfl
    rw [h, ih]

/-- A remark on the bare function: started at 0 with two cores, both occupied, the scan goes
0, 1, 1, 1, ... and uses up every bound on its iterations.  The scheduler never passes such
an input: the cursor is 0 only in the constructed state, where every core is free. -/
theorem getFreeCore_from_zero_diverges (fuel : Nat) :
    getFreeCore twoCoresFull fuel 0 = Run.fuelOut := by
  cases fuel with
  | zero => rfl
  | succ fuel =>
    have h : getFreeCore twoCoresFull (fuel + 1) 0
        = getFreeCoreLoop twoCoresFull 0 fuel 1 := rfl
    rw [h, twoCoresFull_loop]

/-- C7: from the constructed state (cursor 0, every core free), creating `k ≤ N` threads with
ids `0 .. k-1`, each started on the core chosen for it, places thread `j` on core `j`: the
chosen cores are `0, 1, ..., k-1` in creation order, thread `j` is pinned to exactly core `j`
and core `j` runs thread `j`. -/
theorem round_robin_placement (n k fuel : Nat) (tag : Nat → Bool) (q seed : Nat)
    (hk : k ≤ n) :
    ∃ s1, createThreads (fuel + 1) k (SchedulerBigSmall n tag q seed) 0
        = Run.done (s1, List.range k)
      ∧ ∀ j : Nat, j < k → s1.affinity (j : Int) = {j} ∧ s1.m_core_thread_running j = (j : Int) := by
  obtain ⟨s1, h1, h2, _⟩ := createThreads_from n fuel k 0 (SchedulerBigSmall n tag q seed)
    (ctor_appCores n tag q seed) (by omega) (fun _ => ctor_next_core n tag q seed)
    (fun c _ => ctor_running n tag q seed c)
  refine ⟨s1, ?_, fun j hj => h2 j (Nat.zero_le j) (by omega)⟩
  rw [h1, List.range_eq_range']

/-- Scenario A of C7: four cores, four threads, placed on cores 0, 1, 2, 3. -/
theorem round_robin_placement_witness :
    ∃ s1, createThreads (0 + 1) 4 (SchedulerBigSmall 4 tagsA 1000 0) 0
        = Run.done (s1, List.range 4)
      ∧ ∀ j : Nat, j < 4 → s1.affinity (j : Int) = {j} ∧ s1.m_core_thread_running j = (j : Int) :=
  round_robin_placement 4 4 0 tagsA 1000 0 (by decide)

/-- C8 (code at the failing input): when the chosen core is the last one, the cursor is set
to 1, not to `(c + 1) mod N = 0`; with four cores and core 3 chosen the cursor becomes 1,
and with a single core the cursor becomes 1, which is not a core id. -/
theorem cursor_after_last_core_is_one :
    (∀ fuel : Nat, ∃ s1, threadSetInitialAffinity threePlaced (fuel + 1) 3 = Run.done s1
        ∧ s1.affinity 3 = {3} ∧ s1.appCores = 4 ∧ s1.m_next_core = 1 ∧ (3 + 1) % 4 = 0)
    ∧ (∀ fuel : Nat, ∃ s1, threadSetInitialAffinity fresh1 (fuel + 1) 0 = Run.done s1
        ∧ s1.affinity 0 = {0} ∧ s1.appCores = 1 ∧ s1.m_next_core = 1
        ∧ ¬ s1.m_next_core < s1.appCores) := by
  refine ⟨fun fuel => ⟨_, rfl, ?_, rfl, rfl, rfl⟩, fun fuel => ⟨_, rfl, ?_, rfl, rfl, by decide⟩⟩
  · simp
    rfl
  · simp
    rfl

/-- C10 (code at the failing input): the first thread of a fresh four-core scheduler is
pinned to core 0, which is tagged big, and its class flag `m_thread_isbig` stays false:
`threadSetInitialAffinity` never writes the flag. -/
theorem placement_leaves_class_flag :
    ∀ fuel : Nat, ∃ s1, threadSetInitialAffinity fresh4 (fuel + 1) 0 = Run.done s1
      ∧ s1.affinity 0 = {0} ∧ s1.hasTagBig 0 = true ∧ s1.m_thread_isbig 0 = false := by
  intro fuel
  refine ⟨_, rfl, ?_, rfl, rfl⟩
  simp
  rfl


/-! ## Reactive promotion -/

theorem clearIpcLoop_frame (s : Sched) (t : Int) (l : List Nat) :
    (clearIpcLoop s t l).m_thread_isbig = s.m_thread_isbig
    ∧ (clearIpcLoop s t l).isRunning = s.isRunning
    ∧ (clearIpcLoop s t l).numThreads = s.numThreads
    ∧ (clearIpcLoop s t l).m_rng = s.m_rng
    ∧ (clearIpcLoop s t l).affinity = s.affinity
    ∧ (clearIpcLoop s t l).m_mask_big = s.m_mask_big := by
  induction l with
  | nil => simp [clearIpcLoop]
  | cons c l ih =>
    unfold clearIpcLoop
    split
    · simp
    · exact ih

theorem eligible_congr (s s0 : Sched) (h1 : s0.m_thread_isbig = s.m_thread_isbig)
    (h2 : s0.isRunning = s.isRunning) (h3 : s0.numThreads = s.numThreads) :
    eligible s0 = eligible s := by
  unfold eligible
  rw [h1, h2, h3]

theorem mem_eligible (s : Sched) (t : Int) (h : t ∈ eligible s) :
    0 ≤ t ∧ s.m_thread_isbig t = false ∧ s.isRunning t = true := by
  unfold eligible at h
  simp only [List.mem_filter, List.mem_map, List.mem_range] at h
  obtain ⟨⟨a, _, rfl⟩, h2⟩ := h
  simp only [Bool.and_eq_true, beq_iff_eq] at h2
  exact ⟨Int.natCast_nonneg a, h2.1, h2.2⟩

theorem pickBigThread_spec (rng_next : Nat → Nat × Nat) (s : Sched) (hE : eligible s ≠ []) :
    (rng_next s.m_rng).1 % (eligible s).length < (eligible s).length
    ∧ ∃ t, (eligible s)[(rng_next s.m_rng).1 % (eligible s).length]? = some t
      ∧ t ∈ eligible s
      ∧ pickBigThread rng_next s =
          { s with
            m_rng := (rng_next s.m_rng).2
            affinity := Function.update s.affinity t s.m_mask_big
            m_thread_isbig := Function.update s.m_thread_isbig t true } := by
  have hlen : 0 < (eligible s).length := List.length_pos.mpr hE
  have hidx := Nat.mod_lt (rng_next s.m_rng).1 hlen
  refine ⟨hidx, (eligible s)[(rng_next s.m_rng).1 % (eligible s).length], ?_, ?_, ?_⟩
  · exact List.getElem?_eq_getElem hidx
  · exact List.getElem_mem _
  · have hmem : (eligible s)[(rng_next s.m_rng).1 % (eligible s).length] ∈ eligible s :=
      List.getElem_mem _
    have hpos := (mem_eligible s _ hmem).1
    unfold pickBigThread
    rw [if_pos hlen, List.getD_eq_getElem _ _ hidx]
    unfold moveToBig
    rw [if_neg]
    unfold INVALID_THREAD_ID
    omega

/-- C9: when a thread whose class flag is big exits and the list `E` of running threads
with class flag small, ids in `[0, numThreads)` in increasing order, is not empty, then the
index `rng_next(m_rng) mod |E|` is in bounds, the thread `t` at that index of `E` gets class
flag big and the big mask as affinity, and `t` is the only thread whose class flag changes.
The thread is read off `E` and the generator state alone. -/
theorem threadExit_promotes_one (rng_next : Nat → Nat × Nat) (s : Sched) (thread_id : Int)
    (hbig : s.m_thread_isbig thread_id = true) (hE : eligible s ≠ []) :
    (rng_next s.m_rng).1 % (eligible s).length < (eligible s).length
    ∧ ∃ t, (eligible s)[(rng_next s.m_rng).1 % (eligible s).length]? = some t
      ∧ t ∈ eligible s
      ∧ s.m_thread_isbig t = false
      ∧ (threadExit rng_next s thread_id).m_thread_isbig t = true
      ∧ (threadExit rng_next s thread_id).affinity t = s.m_mask_big
      ∧ ∀ u, (threadExit rng_next s thread_id).m_thread_isbig u ≠ s.m_thread_isbig u ↔ u = t := by
  obtain ⟨f1, f2, f3, f4, f5, f6⟩ := clearIpcLoop_frame s thread_id (List.range s.appCores)
  have hEq := eligible_congr s _ f1 f2 f3
  obtain ⟨hidx, t, ht, hmem, hpick⟩ := pickBigThread_spec rng_next
    (clearIpcLoop s thread_id (List.range s.appCores)) (by rw [hEq]; exact hE)
  rw [hEq, f4] at hidx ht
  rw [hEq] at hmem
  have hsmall := (mem_eligible s t hmem).2.1
  have hexit : threadExit rng_next s thread_id
      = pickBigThread rng_next (clearIpcLoop s thread_id (List.range s.appCores)) := by
    unfold threadExit
    rw [if_pos (by rw [f1]; exact hbig)]
  refine ⟨hidx, t, ht, hmem, hsmall, ?_, ?_, ?_⟩
  · rw [hexit, hpick]
    simp
  · rw [hexit, hpick]
    simp [f6]
  · intro u
    rw [hexit, hpick]
    simp only [f1]
    by_cases hu : u = t
    · subst hu
      simp [hsmall]
    · simp [Function.update_noteq hu, hu]


/-- Scenario D of C9: thread 0, the only big thread, exits while threads 1, 2 and 3 are
running and small. -/
theorem threadExit_promotes_one_witness :
    scenarioD.m_thread_isbig 0 = true ∧ eligible scenarioD ≠ []
    ∧ (rngStep scenarioD.m_rng).1 % (eligible scenarioD).length < (eligible scenarioD).length
    ∧ ∃ t, (eligible scenarioD)[(rngStep scenarioD.m_rng).1 % (eligible scenarioD).length]?
          = some t
      ∧ t ∈ eligible scenarioD
      ∧ scenarioD.m_thread_isbig t = false
      ∧ (threadExit rngStep scenarioD 0).m_thread_isbig t = true
      ∧ (threadExit rngStep scenarioD 0).affinity t = scenarioD.m_mask_big
      ∧ ∀ u, (threadExit rngStep scenarioD 0).m_thread_isbig u ≠ scenarioD.m_thread_isbig u
          ↔ u = t :=
  ⟨rfl, by decide, threadExit_promotes_one rngStep scenarioD 0 rfl (by decide)⟩


/-! ## Selection of the victim and the candidate -/

theorem scanCores_eq (s : Sched) : scanCores s = scanUpTo s s.appCores := rfl

theorem scanUpTo_succ (s : Sched) (n : Nat) :
    scanUpTo s (n + 1) = scanStep s (scanUpTo s n) n := by
  unfold scanUpTo
  rw [List.range_succ, List.foldl_append]
  rfl

theorem scanStep_big (s : Sched) (acc : Sel) (n : Nat) :
    (scanStep s acc n).big_min_ipc
        = (if s.hasTagBig n = true ∧ (s.core_info_list n).ipc < acc.big_min_ipc
              ∧ s.m_core_thread_running n ≠ INVALID_THREAD_ID
            then (s.core_info_list n).ipc else acc.big_min_ipc)
    ∧ (scanStep s acc n).big_core
        = (if s.hasTagBig n = true ∧ (s.core_info_list n).ipc < acc.big_min_ipc
              ∧ s.m_core_thread_running n ≠ INVALID_THREAD_ID
            then n else acc.big_core) := by
  unfold scanStep
  dsimp only
  constructor <;> (split_ifs <;> rfl)

theorem scanStep_small (s : Sched) (acc : Sel) (n : Nat) :
    (scanStep s acc n).small_max_ipc
        = (if s.hasTagBig n = false ∧ (s.core_info_list n).ipc > acc.small_max_ipc
              ∧ s.m_core_thread_running n ≠ INVALID_THREAD_ID
            then (s.core_info_list n).ipc else acc.small_max_ipc)
    ∧ (scanStep s acc n).small_core
        = (if s.hasTagBig n = false ∧ (s.core_info_list n).ipc > acc.small_max_ipc
              ∧ s.m_core_thread_running n ≠ INVALID_THREAD_ID
            then n else acc.small_core) := by
  unfold scanStep
  dsimp only
  constructor <;> (split_ifs <;> rfl)

/-- Invariant of the scan for the big side: the running minimum bounds the IPC of every
occupied big core seen so far from below, and it is either still the sentinel (core 0) or
the IPC of the first occupied big core that attains it. -/
theorem scan_big_inv (s : Sched) (n : Nat) :
    (∀ c, c < n → s.hasTagBig c = true → Occupied s c →
        (scanUpTo s n).big_min_ipc ≤ (s.core_info_list c).ipc)
    ∧ (((scanUpTo s n).big_min_ipc = EMPTY_B ∧ (scanUpTo s n).big_core = 0)
      ∨ ((scanUpTo s n).big_core < n
        ∧ s.hasTagBig (scanUpTo s n).big_core = true
        ∧ Occupied s (scanUpTo s n).big_core
        ∧ (s.core_info_list (scanUpTo s n).big_core).ipc = (scanUpTo s n).big_min_ipc
        ∧ (scanUpTo s n).big_min_ipc < EMPTY_B
        ∧ ∀ c, c < (scanUpTo s n).big_core → s.hasTagBig c = true → Occupied s c →
            (scanUpTo s n).big_min_ipc < (s.core_info_list c).ipc)) := by
  induction n with
  | zero =>
    refine ⟨fun c hc => by omega, Or.inl ⟨rfl, rfl⟩⟩
  | succ n ih =>
    rw [scanUpTo_succ]
    generalize scanUpTo s n = acc at ih
    obtain ⟨hmin, hsel⟩ := ih
    rw [(scanStep_big s acc n).1, (scanStep_big s acc n).2]
    by_cases hc : s.hasTagBig n = true ∧ (s.core_info_list n).ipc < acc.big_min_ipc
                ∧ s.m_core_thread_running n ≠ INVALID_THREAD_ID
    · rw [if_pos hc, if_pos hc]
      have hle : acc.big_min_ipc ≤ EMPTY_B := by
        rcases hsel with h | h
        · exact le_of_eq h.1
        · exact le_of_lt h.2.2.2.2.1
      refine ⟨?_, Or.inr ⟨by omega, hc.1, hc.2.2, rfl, by omega, ?_⟩⟩
      · intro c hcn hb ho
        by_cases hcn' : c = n
        · subst hcn'
          exact le_rfl
        · have := hmin c (by omega) hb ho
          omega
      · intro c hcn hb ho
        have := hmin c hcn hb ho
        omega
    · rw [if_neg hc, if_neg hc]
      refine ⟨?_, ?_⟩
      · intro c hcn hb ho
        by_cases hcn' : c = n
        · subst hcn'
          by_contra hlt
          exact hc ⟨hb, by omega, ho⟩
        · exact hmin c (by omega) hb ho
      · rcases hsel with h | h
        · exact Or.inl h
        · exact Or.inr ⟨by omega, h.2.1, h.2.2.1, h.2.2.2.1, h.2.2.2.2.1, h.2.2.2.2.2⟩

/-- Invariant of the scan for the small side, the mirror image of `scan_big_inv`. -/
theorem scan_small_inv (s : Sched) (n : Nat) :
    (∀ c, c < n → s.hasTagBig c = false → Occupied s c →
        (s.core_info_list c).ipc ≤ (scanUpTo s n).small_max_ipc)
    ∧ (((scanUpTo s n).small_max_ipc = EMPTY_S ∧ (scanUpTo s n).small_core = 0)
      ∨ ((scanUpTo s n).small_core < n
        ∧ s.hasTagBig (scanUpTo s n).small_core = false
        ∧ Occupied s (scanUpTo s n).small_core
        ∧ (s.core_info_list (scanUpTo s n).small_core).ipc = (scanUpTo s n).small_max_ipc
        ∧ EMPTY_S < (scanUpTo s n).small_max_ipc
        ∧ ∀ c, c < (scanUpTo s n).small_core → s.hasTagBig c = false → Occupied s c →
            (s.core_info_list c).ipc < (scanUpTo s n).small_max_ipc)) := by
  induction n with
  | zero =>
    refine ⟨fun c hc => by omega, Or.inl ⟨rfl, rfl⟩⟩
  | succ n ih =>
    rw [scanUpTo_succ]
    generalize scanUpTo s n = acc at ih
    obtain ⟨hmax, hsel⟩ := ih
    rw [(scanStep_small s acc n).1, (scanStep_small s acc n).2]
    by_cases hc : s.hasTagBig n = false ∧ (s.core_info_list n).ipc > acc.small_max_ipc
                ∧ s.m_core_thread_running n ≠ INVALID_THREAD_ID
    · rw [if_pos hc, if_pos hc]
      have hle : EMPTY_S ≤ acc.small_max_ipc := by
        rcases hsel with h | h
        · exact le_of_eq h.1.symm
        · exact le_of_lt h.2.2.2.2.1
      refine ⟨?_, Or.inr ⟨by omega, hc.1, hc.2.2, rfl, by omega, ?_⟩⟩
      · intro c hcn hb ho
        by_cases hcn' : c = n
        · subst hcn'
          exact le_rfl
        · have := hmax c (by omega) hb ho
          omega
      · intro c hcn hb ho
        have := hmax c hcn hb ho
        omega
    · rw [if_neg hc, if_neg hc]
      refine ⟨?_, ?_⟩
      · intro c hcn hb ho
        by_cases hcn' : c = n
        · subst hcn'
          by_contra hlt
          exact hc ⟨hb, by omega, ho⟩
        · exact hmax c (by omega) hb ho
      · rcases hsel with h | h
        · exact Or.inl h
        · exact Or.inr ⟨by omega, h.2.1, h.2.2.1, h.2.2.2.1, h.2.2.2.2.1, h.2.2.2.2.2⟩

/-- The scan selects the first occupied big core of minimal IPC, when that IPC is below the
sentinel `EMPTY_B`. -/
theorem scanCores_big (s : Sched) (b : Nat) (hb : IsMinBigCore s b)
    (hlt : (s.core_info_list b).ipc < EMPTY_B) :
    (scanCores s).big_core = b ∧ (scanCores s).big_min_ipc = (s.core_info_list b).ipc := by
  obtain ⟨hbn, hbt, hbo, hbmin, hbfirst⟩ := hb
  obtain ⟨hmin, hsel⟩ := scan_big_inv s s.appCores
  rw [← scanCores_eq] at hmin hsel
  have h1 := hmin b hbn hbt hbo
  rcases hsel with h | ⟨hn, ht, ho, hipc, _, hfirst⟩
  · omega
  · have h2 := hbmin _ hn ht ho
    have heq : (scanCores s).big_core = b := by
      rcases Nat.lt_trichotomy (scanCores s).big_core b with h3 | h3 | h3
      · have := hbfirst _ h3 ht ho
        omega
      · exact h3
      · have := hfirst b h3 hbt hbo
        omega
    refine ⟨heq, ?_⟩
    rw [← hipc, heq]

/-- The scan selects the first occupied small core of maximal IPC, when that IPC is above
the sentinel `EMPTY_S`. -/
theorem scanCores_small (s : Sched) (c : Nat) (hc : IsMaxSmallCore s c)
    (hlt : EMPTY_S < (s.core_info_list c).ipc) :
    (scanCores s).small_core = c ∧ (scanCores s).small_max_ipc = (s.core_info_list c).ipc := by
  obtain ⟨hcn, hct, hco, hcmax, hcfirst⟩ := hc
  obtain ⟨hmax, hsel⟩ := scan_small_inv s s.appCores
  rw [← scanCores_eq] at hmax hsel
  have h1 := hmax c hcn hct hco
  rcases hsel with h | ⟨hn, ht, ho, hipc, _, hfirst⟩
  · omega
  · have h2 := hcmax _ hn ht ho
    have heq : (scanCores s).small_core = c := by
      rcases Nat.lt_trichotomy (scanCores s).small_core c with h3 | h3 | h3
      · have := hcfirst _ h3 ht ho
        omega
      · exact h3
      · have := hfirst c h3 hct hco
        omega
    refine ⟨heq, ?_⟩
    rw [← hipc, heq]


/-! ## Sampling leaves the configuration alone -/

theorem withSamples_trans (s s1 s2 : Sched) (h1 : s1 = withSamples s s1)
    (h2 : s2 = withSamples s1 s2) : s2 = withSamples s s2 := by
  rw [h2, h1]
  rfl

theorem get_core_ipc_frame (s s1 : Sched) (tel : Telemetry) (c : Nat)
    (h : get_core_ipc s tel c = some s1) : s1 = withSamples s s1 := by
  unfold get_core_ipc at h
  dsimp only at h
  split_ifs at h <;> simp only [Option.some.injEq] at h <;> (subst h; rfl)

theorem updateStats_frame (s s1 : Sched) (c : Nat)
    (h : updateStats s c = some s1) : s1 = withSamples s s1 ∧ c < STAT_SLOTS := by
  unfold updateStats at h
  dsimp only at h
  split_ifs at h with h4
  simp only [Option.some.injEq] at h
  subst h
  exact ⟨rfl, by omega⟩

theorem sampleStep_frame (s s1 : Sched) (tel : Telemetry) (c : Nat)
    (h : sampleStep tel s c = some s1) :
    s1 = withSamples s s1 ∧ (Occupied s c → c < STAT_SLOTS) := by
  unfold sampleStep at h
  split_ifs at h with hfree
  · simp only [Option.some.injEq] at h
    subst h
    exact ⟨rfl, fun ho => absurd hfree ho⟩
  · cases hg : get_core_ipc s tel c with
    | none => rw [hg] at h; simp at h
    | some s0 =>
      rw [hg] at h
      simp only at h
      obtain ⟨h1, h2⟩ := updateStats_frame s0 s1 c h
      exact ⟨withSamples_trans s s0 s1 (get_core_ipc_frame s s0 tel c hg) h1, fun _ => h2⟩

theorem sampleLoop_frame (tel : Telemetry) (l : List Nat) :
    ∀ (s s1 : Sched), sampleLoop tel s l = some s1 →
      s1 = withSamples s s1 ∧ ∀ c, c ∈ l → Occupied s c → c < STAT_SLOTS := by
  induction l with
  | nil =>
    intro s s1 h
    unfold sampleLoop at h
    simp only [Option.some.injEq] at h
    subst h
    exact ⟨rfl, fun c hc => by simp at hc⟩
  | cons c l ih =>
    intro s s1 h
    unfold sampleLoop at h
    cases hg : sampleStep tel s c with
    | none => rw [hg] at h; simp at h
    | some s0 =>
      rw [hg] at h
      simp only at h
      obtain ⟨h1, h2⟩ := sampleStep_frame s s0 tel c hg
      obtain ⟨h3, h4⟩ := ih s0 s1 h
      refine ⟨withSamples_trans s s0 s1 h1 h3, ?_⟩
      intro d hd ho
      rcases List.mem_cons.mp hd with rfl | hd
      · exact h2 ho
      · refine h4 d hd ?_
        unfold Occupied at ho ⊢
        rw [h1]
        exact ho

/-- Sampling changes only the per-core records and the running statistics, and it completes
only when every occupied core has a slot in the static tables. -/
theorem sampleCores_frame (s s1 : Sched) (tel : Telemetry) (h : sampleCores s tel = some s1) :
    s1 = withSamples s s1 ∧ ∀ c, c < s.appCores → Occupied s c → c < STAT_SLOTS := by
  obtain ⟨h1, h2⟩ := sampleLoop_frame tel (List.range s.appCores) s s1 h
  exact ⟨h1, fun c hc ho => h2 c (List.mem_range.mpr hc) ho⟩

/-! ## The decision -/

/-- With at least four cores and a sampled state, every read of the decision is inside its
table, and `periodic()` applies `policy` and records the time. -/
theorem periodic_open (s s1 : Sched) (tel : Telemetry) (time : Nat)
    (hgate : time > s.m_last_reshuffle + s.m_quantum)
    (hcores : 4 ≤ s.appCores)
    (hsample : sampleCores s tel = some s1) :
    periodic s tel time = some { policy s1 with m_last_reshuffle := time } := by
  obtain ⟨hframe, hslots⟩ := sampleCores_frame s s1 tel hsample
  have happ : s1.appCores = s.appCores := by rw [hframe]; rfl
  have hocc : ∀ c, Occupied s1 c → Occupied s c := by
    intro c h
    unfold Occupied at h ⊢
    rw [hframe] at h
    exact h
  have hbig : (scanCores s1).big_core < STAT_SLOTS := by
    rcases (scan_big_inv s1 s1.appCores).2 with h | h
    · rw [scanCores_eq, h.2]
      decide
    · rw [scanCores_eq]
      exact hslots _ (by omega) (hocc _ h.2.2.1)
  have hsmall : (scanCores s1).small_core < STAT_SLOTS := by
    rcases (scan_small_inv s1 s1.appCores).2 with h | h
    · rw [scanCores_eq, h.2]
      decide
    · rw [scanCores_eq]
      exact hslots _ (by omega) (hocc _ h.2.2.1)
  have h4 : STAT_SLOTS = 4 := rfl
  have hdec : decision s1 = some (policy s1) := by
    unfold decision policy
    rw [if_neg (by omega), if_neg (by omega)]
    split_ifs <;> first | rfl | omega
  unfold periodic
  rw [if_pos hgate, hsample]
  simp only [hdec]


theorem selected_big (s : Sched) (b : Nat) (hb : IsMinBigCore s b)
    (hlt : (s.core_info_list b).ipc < EMPTY_B) :
    (scanCores s).big_core = b ∧ bigMinIpc s = (s.core_info_list b).ipc
    ∧ bigVictim s = s.m_core_thread_running b ∧ bigVictim s ≠ INVALID_THREAD_ID := by
  obtain ⟨h1, h2⟩ := scanCores_big s b hb hlt
  have hne : (scanCores s).big_min_ipc ≠ EMPTY_B := by rw [h2]; omega
  have hv : bigVictim s = s.m_core_thread_running b := by
    unfold bigVictim
    rw [if_neg hne, h1]
  refine ⟨h1, ?_, hv, ?_⟩
  · unfold bigMinIpc
    rw [if_neg hne, h2]
  · rw [hv]
    exact hb.2.2.1

theorem selected_small (s : Sched) (c : Nat) (hc : IsMaxSmallCore s c)
    (hlt : EMPTY_S < (s.core_info_list c).ipc) :
    (scanCores s).small_core = c ∧ smallMaxIpc s = (s.core_info_list c).ipc
    ∧ smallCandidate s = s.m_core_thread_running c ∧ smallCandidate s ≠ INVALID_THREAD_ID := by
  obtain ⟨h1, h2⟩ := scanCores_small s c hc hlt
  have hne : (scanCores s).small_max_ipc ≠ EMPTY_S := by rw [h2]; omega
  have hv : smallCandidate s = s.m_core_thread_running c := by
    unfold smallCandidate
    rw [if_neg hne, h1]
  refine ⟨h1, ?_, hv, ?_⟩
  · unfold smallMaxIpc
    rw [if_neg hne, h2]
  · rw [hv]
    exact hc.2.2.1

theorem moveToSmall_valid (s : Sched) (t : Int) (ht : t ≠ INVALID_THREAD_ID) :
    moveToSmall s t =
      { s with
        affinity := Function.update s.affinity t s.m_mask_small
        m_thread_isbig := Function.update s.m_thread_isbig t false } := by
  unfold moveToSmall
  rw [if_neg ht]

theorem moveToBig_valid (s : Sched) (t : Int) (ht : t ≠ INVALID_THREAD_ID) :
    moveToBig s t =
      { s with
        affinity := Function.update s.affinity t s.m_mask_big
        m_thread_isbig := Function.update s.m_thread_isbig t true } := by
  unfold moveToBig
  rw [if_neg ht]

/-- The three outcomes of the decision when both a victim on core `b` and a candidate on
core `c` are selected. -/
theorem policy_selected (s : Sched) (b c : Nat)
    (hb : IsMinBigCore s b) (hbs : (s.core_info_list b).ipc < EMPTY_B)
    (hc : IsMaxSmallCore s c) (hcs : EMPTY_S < (s.core_info_list c).ipc) :
    policy s =
      if intToFloat (s.core_info_list b).ipc < s.stat_mean b then
        if intToFloat (s.core_info_list c).ipc > s.stat_mean c then
          { s with
            affinity := Function.update
              (Function.update s.affinity (s.m_core_thread_running b) s.m_mask_small)
              (s.m_core_thread_running c) s.m_mask_big
            m_thread_isbig := Function.update
              (Function.update s.m_thread_isbig (s.m_core_thread_running b) false)
              (s.m_core_thread_running c) true }
        else if intToFloat (s.core_info_list c).ipc < s.stat_mean c then
          { s with
            affinity := Function.update s.affinity (s.m_core_thread_running b) s.m_mask_small
            m_thread_isbig := Function.update s.m_thread_isbig (s.m_core_thread_running b) false }
        else s
      else s := by
  obtain ⟨b1, b2, b3, b4⟩ := selected_big s b hb hbs
  obtain ⟨c1, c2, c3, c4⟩ := selected_small s c hc hcs
  unfold policy
  rw [b1, b2, c1, c2, moveToSmall_valid s _ b4, moveToBig_valid _ _ c4, b3, c3]

/-- C1 (amended): on a gated-open tick with at least four cores whose sampling completes,
let `b` be the first occupied big core of minimal IPC and `c` the first occupied small core
of maximal IPC, after sampling, running different threads.  If the IPC of `b` is below the
sentinel `EMPTY_B = 10000` and, compared as `float`, strictly below the running mean of `b`,
and the IPC of `c` is above the sentinel `EMPTY_S = 0` and strictly above the running mean of
`c`, then the tick returns, the threads on `b` and `c` are the victim and the candidate, the
thread on `b` gets the small mask and class flag false, and the thread on `c` gets the big
mask and class flag true. -/
theorem periodic_swap (s s1 : Sched) (tel : Telemetry) (time b c : Nat)
    (hgate : time > s.m_last_reshuffle + s.m_quantum)
    (hcores : 4 ≤ s.appCores)
    (hsample : sampleCores s tel = some s1)
    (hb : IsMinBigCore s1 b) (hbs : (s1.core_info_list b).ipc < EMPTY_B)
    (hc : IsMaxSmallCore s1 c) (hcs : EMPTY_S < (s1.core_info_list c).ipc)
    (hbm : intToFloat (s1.core_info_list b).ipc < s1.stat_mean b)
    (hcm : intToFloat (s1.core_info_list c).ipc > s1.stat_mean c)
    (hthr : s.m_core_thread_running b ≠ s.m_core_thread_running c) :
    ∃ s2, periodic s tel time = some s2
      ∧ bigVictim s1 = s.m_core_thread_running b
      ∧ smallCandidate s1 = s.m_core_thread_running c
      ∧ s2.affinity (s.m_core_thread_running b) = s.m_mask_small
      ∧ s2.m_thread_isbig (s.m_core_thread_running b) = false
      ∧ s2.affinity (s.m_core_thread_running c) = s.m_mask_big
      ∧ s2.m_thread_isbig (s.m_core_thread_running c) = true := by
  obtain ⟨hframe, _⟩ := sampleCores_frame s s1 tel hsample
  have hrun : s1.m_core_thread_running = s.m_core_thread_running := by rw [hframe]; rfl
  have hms : s1.m_mask_small = s.m_mask_small := by rw [hframe]; rfl
  have hmb : s1.m_mask_big = s.m_mask_big := by rw [hframe]; rfl
  refine ⟨_, periodic_open s s1 tel time hgate hcores hsample, ?_, ?_, ?_⟩
  · rw [(selected_big s1 b hb hbs).2.2.1, hrun]
  · rw [(selected_small s1 c hc hcs).2.2.1, hrun]
  · rw [policy_selected s1 b c hb hbs hc hcs, if_pos hbm, if_pos hcm, hrun, hms, hmb]
    simp [Function.update_noteq hthr]


/-! ## Exact float arithmetic on small integers -/

theorem roundBinary_intCast (prec : Nat) (n : Int) (h : n.natAbs ≤ 2 ^ prec) :
    roundBinary prec (n : ℚ) = (n : ℚ) := by
  unfold roundBinary
  rw [if_pos]
  exact ⟨Rat.den_intCast n, by rw [Rat.num_intCast]; exact h⟩

/-- Integers of magnitude at most `2 ^ 24` convert to `float` without rounding. -/
theorem intToFloat_exact (n : Int) (h : n.natAbs ≤ 2 ^ 24) : intToFloat n = (n : ℚ) :=
  roundBinary_intCast 24 n h

/-- A `float` division of small integers with an integer quotient is exact. -/
theorem divFloat_exact (a b q : Int) (ha : a.natAbs ≤ 2 ^ 24) (hb : b.natAbs ≤ 2 ^ 24)
    (hq : q.natAbs ≤ 2 ^ 24) (hb0 : b ≠ 0) (h : a = q * b) :
    divFloat (intToFloat a) (intToFloat b) = (q : ℚ) := by
  rw [intToFloat_exact a ha, intToFloat_exact b hb, divFloat]
  have hb0' : (b : ℚ) ≠ 0 := by exact_mod_cast hb0
  have : (a : ℚ) / (b : ℚ) = (q : ℚ) := by
    rw [h]
    push_cast
    field_simp
  rw [this, roundBinary_intCast 24 q hq]

/-! ## The scenarios, sampled -/

theorem mean_900 : divFloat (intToFloat 1800) (intToFloat 2) = 900 := by
  rw [divFloat_exact 1800 2 900 (by decide) (by decide) (by decide) (by decide) (by decide)]
  norm_num

theorem mean_700 : divFloat (intToFloat 1400) (intToFloat 2) = 700 := by
  rw [divFloat_exact 1400 2 700 (by decide) (by decide) (by decide) (by decide) (by decide)]
  norm_num

theorem mean_10650 : divFloat (intToFloat 21300) (intToFloat 2) = 10650 := by
  rw [divFloat_exact 21300 2 10650 (by decide) (by decide) (by decide) (by decide) (by decide)]
  norm_num

theorem float_500 : intToFloat 500 = 500 := by
  rw [intToFloat_exact 500 (by decide)]
  norm_num

theorem float_950 : intToFloat 950 = 950 := by
  rw [intToFloat_exact 950 (by decide)]
  norm_num

theorem float_300 : intToFloat 300 = 300 := by
  rw [intToFloat_exact 300 (by decide)]
  norm_num

theorem float_700 : intToFloat 700 = 700 := by
  rw [intToFloat_exact 700 (by decide)]
  norm_num

theorem float_0 : intToFloat 0 = 0 := by
  rw [intToFloat_exact 0 (by decide)]
  norm_num

/-- Scenario B after sampling: core 0 has IPC 500 and mean 900, core 2 IPC 950 and mean 700. -/
theorem scenarioB_sampled :
    sampleCores (twoThreads 1300 450) (tick 500 950)
      = some (sampled (twoThreads 1300 450) (tick 500 950))
    ∧ intToFloat ((sampled (twoThreads 1300 450) (tick 500 950)).core_info_list 0).ipc
        < (sampled (twoThreads 1300 450) (tick 500 950)).stat_mean 0
    ∧ intToFloat ((sampled (twoThreads 1300 450) (tick 500 950)).core_info_list 2).ipc
        > (sampled (twoThreads 1300 450) (tick 500 950)).stat_mean 2 := by
  refine ⟨rfl, ?_, ?_⟩
  · show intToFloat 500 < divFloat (intToFloat 1800) (intToFloat 2)
    rw [mean_900, float_500]
    norm_num
  · show intToFloat 950 > divFloat (intToFloat 1400) (intToFloat 2)
    rw [mean_700, float_950]
    norm_num

/-- Scenario C after sampling: core 0 has IPC 500 and mean 900, core 2 IPC 300 and mean 700. -/
theorem scenarioC_sampled :
    sampleCores (twoThreads 1300 1100) (tick 500 300)
      = some (sampled (twoThreads 1300 1100) (tick 500 300))
    ∧ intToFloat ((sampled (twoThreads 1300 1100) (tick 500 300)).core_info_list 0).ipc
        < (sampled (twoThreads 1300 1100) (tick 500 300)).stat_mean 0
    ∧ intToFloat ((sampled (twoThreads 1300 1100) (tick 500 300)).core_info_list 2).ipc
        < (sampled (twoThreads 1300 1100) (tick 500 300)).stat_mean 2 := by
  refine ⟨rfl, ?_, ?_⟩
  · show intToFloat 500 < divFloat (intToFloat 1800) (intToFloat 2)
    rw [mean_900, float_500]
    norm_num
  · show intToFloat 300 < divFloat (intToFloat 1400) (intToFloat 2)
    rw [mean_700, float_300]
    norm_num

/-- The boundary tick after sampling: core 0 has IPC 500 and mean 900, core 2 has IPC 700
and mean 700. -/
theorem boundary_sampled :
    sampleCores (twoThreads 1300 700) (tick 500 700)
      = some (sampled (twoThreads 1300 700) (tick 500 700))
    ∧ intToFloat ((sampled (twoThreads 1300 700) (tick 500 700)).core_info_list 0).ipc
        < (sampled (twoThreads 1300 700) (tick 500 700)).stat_mean 0
    ∧ intToFloat ((sampled (twoThreads 1300 700) (tick 500 700)).core_info_list 2).ipc
        = (sampled (twoThreads 1300 700) (tick 500 700)).stat_mean 2 := by
  refine ⟨rfl, ?_, ?_⟩
  · show intToFloat 500 < divFloat (intToFloat 1800) (intToFloat 2)
    rw [mean_900, float_500]
    norm_num
  · show intToFloat 700 = divFloat (intToFloat 1400) (intToFloat 2)
    rw [mean_700, float_700]


/-- Scenario B of C1: big core 0 has IPC 500 (mean 900), small core 2 has IPC 950 (mean 700);
thread 0 is demoted and thread 2 promoted. -/
theorem periodic_swap_witness :
    ∃ s2, periodic (twoThreads 1300 450) (tick 500 950) 2000 = some s2
      ∧ bigVictim (sampled (twoThreads 1300 450) (tick 500 950))
          = (twoThreads 1300 450).m_core_thread_running 0
      ∧ smallCandidate (sampled (twoThreads 1300 450) (tick 500 950))
          = (twoThreads 1300 450).m_core_thread_running 2
      ∧ s2.affinity ((twoThreads 1300 450).m_core_thread_running 0)
          = (twoThreads 1300 450).m_mask_small
      ∧ s2.m_thread_isbig ((twoThreads 1300 450).m_core_thread_running 0) = false
      ∧ s2.affinity ((twoThreads 1300 450).m_core_thread_running 2)
          = (twoThreads 1300 450).m_mask_big
      ∧ s2.m_thread_isbig ((twoThreads 1300 450).m_core_thread_running 2) = true :=
  periodic_swap (twoThreads 1300 450) (sampled (twoThreads 1300 450) (tick 500 950))
    (tick 500 950) 2000 0 2 (by decide) (by decide) scenarioB_sampled.1 (by decide) (by decide)
    (by decide) (by decide) scenarioB_sampled.2.1 scenarioB_sampled.2.2 (by decide)

/-- The decision when no victim is selected: the IPC of the victim is replaced by 0, the
comparison uses the mean of core 0, and nobody is demoted. -/
theorem policy_no_victim (s : Sched) (h : (scanCores s).big_min_ipc = EMPTY_B) :
    (scanCores s).big_core = 0
    ∧ policy s =
      if intToFloat 0 < s.stat_mean 0
          ∧ intToFloat (smallMaxIpc s) > s.stat_mean (scanCores s).small_core then
        moveToBig s (smallCandidate s)
      else s := by
  have h0 : (scanCores s).big_core = 0 := by
    rcases (scan_big_inv s s.appCores).2 with h1 | h1
    · exact h1.2
    · rw [← scanCores_eq] at h1
      omega
  have hv : bigVictim s = INVALID_THREAD_ID := by
    unfold bigVictim
    rw [if_pos h]
  have hm : bigMinIpc s = 0 := by
    unfold bigMinIpc
    rw [if_pos h]
  have hmv : moveToSmall s INVALID_THREAD_ID = s := by
    unfold moveToSmall
    rw [if_pos rfl]
  refine ⟨h0, ?_⟩
  unfold policy
  rw [hv, hm, h0, hmv]
  split_ifs <;> first | rfl | tauto

/-- C1 (counterexample): four cores, thread 0 on big core 0, thread 2 on small core 2.  After
sampling, core 0 is the occupied big core of minimal IPC, with IPC 10000 below its running
mean 10650, and core 2 is the occupied small core of maximal IPC, with IPC 950 above its
running mean 700.  The tick promotes thread 2 and leaves thread 0 big, with its affinity
unchanged: an IPC of 10000 equals the sentinel `EMPTY_B`, so no victim is selected. -/
theorem swap_not_taken_at_sentinel :
    IsMinBigCore (sampled (twoThreads 11300 450) (tick 10000 950)) 0
    ∧ ((sampled (twoThreads 11300 450) (tick 10000 950)).core_info_list 0).ipc = 10000
    ∧ (sampled (twoThreads 11300 450) (tick 10000 950)).stat_mean 0 = 10650
    ∧ IsMaxSmallCore (sampled (twoThreads 11300 450) (tick 10000 950)) 2
    ∧ ((sampled (twoThreads 11300 450) (tick 10000 950)).core_info_list 2).ipc = 950
    ∧ (sampled (twoThreads 11300 450) (tick 10000 950)).stat_mean 2 = 700
    ∧ ∃ s2, periodic (twoThreads 11300 450) (tick 10000 950) 2000 = some s2
      ∧ s2.m_thread_isbig 0 = true
      ∧ s2.affinity 0 = (twoThreads 11300 450).affinity 0
      ∧ s2.m_thread_isbig 2 = true := by
  have hs : sampleCores (twoThreads 11300 450) (tick 10000 950)
      = some (sampled (twoThreads 11300 450) (tick 10000 950)) := rfl
  have hm0 : (sampled (twoThreads 11300 450) (tick 10000 950)).stat_mean 0 = 10650 := mean_10650
  have hm2 : (sampled (twoThreads 11300 450) (tick 10000 950)).stat_mean 2 = 700 := mean_700
  have hsel : (scanCores (sampled (twoThreads 11300 450) (tick 10000 950))).big_min_ipc
      = EMPTY_B := rfl
  have hsc : (scanCores (sampled (twoThreads 11300 450) (tick 10000 950))).small_core = 2 := rfl
  have hsm : smallMaxIpc (sampled (twoThreads 11300 450) (tick 10000 950)) = 950 := rfl
  have hcand : smallCandidate (sampled (twoThreads 11300 450) (tick 10000 950)) = 2 := rfl
  have hpol : policy (sampled (twoThreads 11300 450) (tick 10000 950))
      = moveToBig (sampled (twoThreads 11300 450) (tick 10000 950)) 2 := by
    rw [(policy_no_victim _ hsel).2, hsc, hsm, hm0, hm2, float_0, float_950, hcand, if_pos]
    norm_num
  refine ⟨by decide, rfl, hm0, by decide, rfl, hm2, _,
    periodic_open _ _ _ 2000 (by decide) (by decide) hs, ?_, ?_, ?_⟩
  · rw [hpol]
    rfl
  · rw [hpol]
    rfl
  · rw [hpol]
    rfl

/-- C2: on a gated-open tick with at least four cores whose sampling completes, let the
selected big victim run on core `b` (the first occupied big core of minimal IPC, that IPC
below the sentinel `EMPTY_B`) and the selected small candidate on core `c` (the first
occupied small core of maximal IPC, that IPC above the sentinel `EMPTY_S`), two different
threads.  If, compared as `float`, the IPC of `b` is strictly below the running mean of `b`
and the IPC of `c` strictly below the running mean of `c`, then the tick returns, the victim
gets the small mask and class flag false, and the class flag and the affinity of the
candidate are what they were. -/
theorem periodic_demote_only (s s1 : Sched) (tel : Telemetry) (time b c : Nat)
    (hgate : time > s.m_last_reshuffle + s.m_quantum)
    (hcores : 4 ≤ s.appCores)
    (hsample : sampleCores s tel = some s1)
    (hb : IsMinBigCore s1 b) (hbs : (s1.core_info_list b).ipc < EMPTY_B)
    (hc : IsMaxSmallCore s1 c) (hcs : EMPTY_S < (s1.core_info_list c).ipc)
    (hbm : intToFloat (s1.core_info_list b).ipc < s1.stat_mean b)
    (hcm : intToFloat (s1.core_info_list c).ipc < s1.stat_mean c)
    (hthr : s.m_core_thread_running b ≠ s.m_core_thread_running c) :
    ∃ s2, periodic s tel time = some s2
      ∧ bigVictim s1 = s.m_core_thread_running b
      ∧ smallCandidate s1 = s.m_core_thread_running c
      ∧ s2.affinity (s.m_core_thread_running b) = s.m_mask_small
      ∧ s2.m_thread_isbig (s.m_core_thread_running b) = false
      ∧ s2.affinity (s.m_core_thread_running c) = s.affinity (s.m_core_thread_running c)
      ∧ s2.m_thread_isbig (s.m_core_thread_running c)
          = s.m_thread_isbig (s.m_core_thread_running c) := by
  obtain ⟨hframe, _⟩ := sampleCores_frame s s1 tel hsample
  have hrun : s1.m_core_thread_running = s.m_core_thread_running := by rw [hframe]; rfl
  have hms : s1.m_mask_small = s.m_mask_small := by rw [hframe]; rfl
  have haff : s1.affinity = s.affinity := by rw [hframe]; rfl
  have hflag : s1.m_thread_isbig = s.m_thread_isbig := by rw [hframe]; rfl
  refine ⟨_, periodic_open s s1 tel time hgate hcores hsample, ?_, ?_, ?_⟩
  · rw [(selected_big s1 b hb hbs).2.2.1, hrun]
  · rw [(selected_small s1 c hc hcs).2.2.1, hrun]
  · rw [policy_selected s1 b c hb hbs hc hcs, if_pos hbm, if_neg (not_lt.mpr (le_of_lt hcm)),
      if_pos hcm, hrun, hms, haff, hflag]
    simp [Function.update_noteq hthr.symm]

/-- Scenario C of C2: big core 0 has IPC 500 (mean 900), small core 2 has IPC 300 (mean 700);
thread 0 is demoted and thread 2 keeps its class. -/
theorem periodic_demote_only_witness :
    ∃ s2, periodic (twoThreads 1300 1100) (tick 500 300) 2000 = some s2
      ∧ bigVictim (sampled (twoThreads 1300 1100) (tick 500 300))
          = (twoThreads 1300 1100).m_core_thread_running 0
      ∧ smallCandidate (sampled (twoThreads 1300 1100) (tick 500 300))
          = (twoThreads 1300 1100).m_core_thread_running 2
      ∧ s2.affinity ((twoThreads 1300 1100).m_core_thread_running 0)
          = (twoThreads 1300 1100).m_mask_small
      ∧ s2.m_thread_isbig ((twoThreads 1300 1100).m_core_thread_running 0) = false
      ∧ s2.affinity ((twoThreads 1300 1100).m_core_thread_running 2)
          = (twoThreads 1300 1100).affinity ((twoThreads 1300 1100).m_core_thread_running 2)
      ∧ s2.m_thread_isbig ((twoThreads 1300 1100).m_core_thread_running 2)
          = (twoThreads 1300 1100).m_thread_isbig
              ((twoThreads 1300 1100).m_core_thread_running 2) :=
  periodic_demote_only (twoThreads 1300 1100) (sampled (twoThreads 1300 1100) (tick 500 300))
    (tick 500 300) 2000 0 2 (by decide) (by decide) scenarioC_sampled.1 (by decide) (by decide)
    (by decide) (by decide) scenarioC_sampled.2.1 scenarioC_sampled.2.2 (by decide)

/-- C3 (counterexample): four cores, thread 0 (big) on big core 0, thread 2 on small core 2.
After sampling, the victim on core 0 has IPC 500 strictly below its mean 900 and the
candidate on core 2 has IPC 700 equal to its mean 700.  The tick returns and thread 0 is not
demoted: it keeps class flag big and its affinity. -/
theorem no_demotion_at_equal_mean :
    bigVictim (sampled (twoThreads 1300 700) (tick 500 700)) = 0
    ∧ smallCandidate (sampled (twoThreads 1300 700) (tick 500 700)) = 2
    ∧ intToFloat ((sampled (twoThreads 1300 700) (tick 500 700)).core_info_list 0).ipc
        < (sampled (twoThreads 1300 700) (tick 500 700)).stat_mean 0
    ∧ intToFloat ((sampled (twoThreads 1300 700) (tick 500 700)).core_info_list 2).ipc
        = (sampled (twoThreads 1300 700) (tick 500 700)).stat_mean 2
    ∧ ∃ s2, periodic (twoThreads 1300 700) (tick 500 700) 2000 = some s2
      ∧ s2.m_thread_isbig 0 = true
      ∧ s2.affinity 0 = (twoThreads 1300 700).affinity 0
      ∧ s2.affinity 0 ≠ (twoThreads 1300 700).m_mask_small := by
  have hpol : policy (sampled (twoThreads 1300 700) (tick 500 700))
      = sampled (twoThreads 1300 700) (tick 500 700) := by
    rw [policy_selected _ 0 2 (by decide) (by decide) (by decide) (by decide),
      if_pos boundary_sampled.2.1, if_neg (not_lt.mpr (le_of_eq boundary_sampled.2.2)),
      if_neg (not_lt.mpr (le_of_eq boundary_sampled.2.2.symm))]
  refine ⟨rfl, rfl, boundary_sampled.2.1, boundary_sampled.2.2, _,
    periodic_open _ _ _ 2000 (by decide) (by decide) boundary_sampled.1, ?_, ?_, ?_⟩
  · rw [hpol]
    rfl
  · rw [hpol]
    rfl
  · rw [hpol]
    decide

/-- C3 (amended): on a gated-open tick with at least four cores whose sampling completes,
with the big victim selected on core `b`, its IPC strictly below the running mean of `b`,
and the small candidate selected on core `c`, its IPC, compared as `float`, equal to the
running mean of `c`, the tick returns and takes no action: no class flag and no affinity
changes, so the victim is not demoted and nobody is promoted. -/
theorem periodic_equal_mean_no_action (s s1 : Sched) (tel : Telemetry) (time b c : Nat)
    (hgate : time > s.m_last_reshuffle + s.m_quantum)
    (hcores : 4 ≤ s.appCores)
    (hsample : sampleCores s tel = some s1)
    (hb : IsMinBigCore s1 b) (hbs : (s1.core_info_list b).ipc < EMPTY_B)
    (hc : IsMaxSmallCore s1 c) (hcs : EMPTY_S < (s1.core_info_list c).ipc)
    (hbm : intToFloat (s1.core_info_list b).ipc < s1.stat_mean b)
    (hcm : intToFloat (s1.core_info_list c).ipc = s1.stat_mean c) :
    ∃ s2, periodic s tel time = some s2
      ∧ bigVictim s1 = s.m_core_thread_running b
      ∧ smallCandidate s1 = s.m_core_thread_running c
      ∧ s2.affinity = s.affinity
      ∧ s2.m_thread_isbig = s.m_thread_isbig := by
  obtain ⟨hframe, _⟩ := sampleCores_frame s s1 tel hsample
  have hrun : s1.m_core_thread_running = s.m_core_thread_running := by rw [hframe]; rfl
  have haff : s1.affinity = s.affinity := by rw [hframe]; rfl
  have hflag : s1.m_thread_isbig = s.m_thread_isbig := by rw [hframe]; rfl
  refine ⟨_, periodic_open s s1 tel time hgate hcores hsample, ?_, ?_, ?_⟩
  · rw [(selected_big s1 b hb hbs).2.2.1, hrun]
  · rw [(selected_small s1 c hc hcs).2.2.1, hrun]
  · rw [policy_selected s1 b c hb hbs hc hcs, if_pos hbm, if_neg (not_lt.mpr (le_of_eq hcm)),
      if_neg (not_lt.mpr (le_of_eq hcm.symm))]
    exact ⟨haff, hflag⟩

/-- The boundary tick of C3: victim IPC 500 (mean 900), candidate IPC 700 (mean 700). -/
theorem periodic_equal_mean_no_action_witness :
    ∃ s2, periodic (twoThreads 1300 700) (tick 500 700) 2000 = some s2
      ∧ bigVictim (sampled (twoThreads 1300 700) (tick 500 700))
          = (twoThreads 1300 700).m_core_thread_running 0
      ∧ smallCandidate (sampled (twoThreads 1300 700) (tick 500 700))
          = (twoThreads 1300 700).m_core_thread_running 2
      ∧ s2.affinity = (twoThreads 1300 700).affinity
      ∧ s2.m_thread_isbig = (twoThreads 1300 700).m_thread_isbig :=
  periodic_equal_mean_no_action (twoThreads 1300 700)
    (sampled (twoThreads 1300 700) (tick 500 700)) (tick 500 700) 2000 0 2 (by decide)
    (by decide) boundary_sampled.1 (by decide) (by decide) (by decide) (by decide)
    boundary_sampled.2.1 boundary_sampled.2.2


/-! ## The quantum gate -/

theorem moveToSmall_quantum (s : Sched) (t : Int) : (moveToSmall s t).m_quantum = s.m_quantum := by
  unfold moveToSmall
  split_ifs <;> rfl

theorem moveToBig_quantum (s : Sched) (t : Int) : (moveToBig s t).m_quantum = s.m_quantum := by
  unfold moveToBig
  split_ifs <;> rfl

theorem decision_quantum (s s2 : Sched) (h : decision s = some s2) :
    s2.m_quantum = s.m_quantum := by
  unfold decision at h
  split_ifs at h <;> simp only [Option.some.injEq] at h <;> subst h
  · rw [moveToBig_quantum, moveToSmall_quantum]
  · rw [moveToSmall_quantum]
  · rfl
  · rfl

/-- C4: a call of `periodic(t)` with `t ≤ m_last_reshuffle + m_quantum` returns the state it
was given: per-core IPC and records, running statistics, class flags, affinities and the
last action time are all unchanged.  Hence when a gated-open call `periodic(t1)` has
returned, the last action time is `t1` and any later call `periodic(t2)` with
`t2 ≤ t1 + m_quantum` changes nothing. -/
theorem periodic_quantum_gate :
    (∀ (s : Sched) (tel : Telemetry) (t : Nat),
        t ≤ s.m_last_reshuffle + s.m_quantum → periodic s tel t = some s)
    ∧ (∀ (s s1 : Sched) (tel tel2 : Telemetry) (t1 t2 : Nat),
        t1 > s.m_last_reshuffle + s.m_quantum → periodic s tel t1 = some s1 →
        t2 ≤ t1 + s.m_quantum →
        s1.m_last_reshuffle = t1 ∧ periodic s1 tel2 t2 = some s1) := by
  have hclosed : ∀ (s : Sched) (tel : Telemetry) (t : Nat),
      t ≤ s.m_last_reshuffle + s.m_quantum → periodic s tel t = some s := by
    intro s tel t h
    unfold periodic
    rw [if_neg (by omega)]
  refine ⟨hclosed, ?_⟩
  intro s s1 tel tel2 t1 t2 hgate hper ht2
  unfold periodic at hper
  rw [if_pos hgate] at hper
  cases hs : sampleCores s tel with
  | none => rw [hs] at hper; simp at hper
  | some s0 =>
    rw [hs] at hper
    simp only at hper
    cases hd : decision s0 with
    | none => rw [hd] at hper; simp at hper
    | some s2 =>
      rw [hd] at hper
      simp only [Option.some.injEq] at hper
      have hq0 : s0.m_quantum = s.m_quantum := by
        rw [(sampleCores_frame s s0 tel hs).1]
        rfl
      have hq2 := decision_quantum s0 s2 hd
      have hlast : s1.m_last_reshuffle = t1 := by rw [← hper]
      have hq1 : s1.m_quantum = s.m_quantum := by rw [← hper]; exact hq2.trans hq0
      exact ⟨hlast, hclosed s1 tel2 t2 (by rw [hlast, hq1]; exact ht2)⟩

/-- Two calls within one quantum window for C4: with quantum 1000 and last action at 0, the
call at time 1000 changes nothing; the call at time 2000 acts, and the call at time 3000
that follows it changes nothing. -/
theorem periodic_quantum_gate_witness :
    periodic (twoThreads 1300 450) (tick 500 950) 1000 = some (twoThreads 1300 450)
    ∧ ∃ s1, periodic (twoThreads 1300 450) (tick 500 950) 2000 = some s1
      ∧ s1.m_last_reshuffle = 2000
      ∧ periodic s1 (tick 900 1900) 3000 = some s1 :=
  ⟨periodic_quantum_gate.1 (twoThreads 1300 450) (tick 500 950) 1000 (by decide),
    _, periodic_open _ _ _ 2000 (by decide) (by decide) scenarioB_sampled.1,
    periodic_quantum_gate.2 (twoThreads 1300 450) _ (tick 500 950) (tick 900 1900) 2000 3000
      (by decide) (periodic_open _ _ _ 2000 (by decide) (by decide) scenarioB_sampled.1)
      (by decide)⟩

/-! ## Class changes -/

/-- C16: for a thread id `t` other than `INVALID_THREAD_ID`, `moveToBig(t)` makes the
affinity of `t` exactly the big mask and its class flag big, `moveToSmall(t)` makes the
affinity of `t` exactly the small mask and its class flag small, and neither changes the
class flag of another thread; for `INVALID_THREAD_ID` both return the state unchanged. -/
theorem class_change_postcondition (s : Sched) :
    (∀ t : Int, t ≠ INVALID_THREAD_ID →
        (moveToBig s t).affinity t = s.m_mask_big
        ∧ (moveToBig s t).m_thread_isbig t = true
        ∧ (∀ u, u ≠ t → (moveToBig s t).m_thread_isbig u = s.m_thread_isbig u)
        ∧ (moveToSmall s t).affinity t = s.m_mask_small
        ∧ (moveToSmall s t).m_thread_isbig t = false
        ∧ (∀ u, u ≠ t → (moveToSmall s t).m_thread_isbig u = s.m_thread_isbig u))
    ∧ moveToBig s INVALID_THREAD_ID = s
    ∧ moveToSmall s INVALID_THREAD_ID = s := by
  refine ⟨?_, ?_, ?_⟩
  · intro t ht
    rw [moveToBig_valid s t ht, moveToSmall_valid s t ht]
    refine ⟨?_, ?_, ?_, ?_, ?_, ?_⟩
    · simp
    · simp
    · intro u hu
      simp [Function.update_noteq hu]
    · simp
    · simp
    · intro u hu
      simp [Function.update_noteq hu]
  · unfold moveToBig
    rw [if_pos rfl]
  · unfold moveToSmall
    rw [if_pos rfl]

/-- The class changes of C16 applied to thread 2 of scenario D. -/
theorem class_change_postcondition_witness :
    (2 : Int) ≠ INVALID_THREAD_ID
    ∧ (moveToBig scenarioD 2).affinity 2 = scenarioD.m_mask_big
    ∧ (moveToBig scenarioD 2).m_thread_isbig 2 = true
    ∧ (∀ u, u ≠ 2 → (moveToBig scenarioD 2).m_thread_isbig u = scenarioD.m_thread_isbig u)
    ∧ (moveToSmall scenarioD 2).affinity 2 = scenarioD.m_mask_small
    ∧ (moveToSmall scenarioD 2).m_thread_isbig 2 = false
    ∧ (∀ u, u ≠ 2 → (moveToSmall scenarioD 2).m_thread_isbig u = scenarioD.m_thread_isbig u) :=
  ⟨by decide, (class_change_postcondition scenarioD).1 2 (by decide)⟩

/-! ## Core classification -/

/-- The masks and the counter after the constructor loop has handled the cores below `n`. -/
theorem ctor_fold_masks (tag : Nat → Bool) (q seed m : Nat) (n : Nat) :
    ((List.range n).foldl ctorStep (ctorInit m tag q seed)).m_mask_big
        = (Finset.range n).filter (fun c => tag c = true)
    ∧ ((List.range n).foldl ctorStep (ctorInit m tag q seed)).m_mask_small
        = (Finset.range n).filter (fun c => tag c = false)
    ∧ ((List.range n).foldl ctorStep (ctorInit m tag q seed)).m_num_big_cores
        = ((Finset.range n).filter (fun c => tag c = true)).card := by
  induction n with
  | zero => exact ⟨rfl, rfl, rfl⟩
  | succ n ih =>
    rw [List.range_succ, List.foldl_append]
    simp only [List.foldl_cons, List.foldl_nil]
    have htag : ((List.range n).foldl ctorStep (ctorInit m tag q seed)).hasTagBig = tag :=
      (ctor_fold_frame _ _).2.2.1
    obtain ⟨h1, h2, h3⟩ := ih
    generalize (List.range n).foldl ctorStep (ctorInit m tag q seed) = acc at htag h1 h2 h3
    unfold ctorStep
    rw [htag]
    by_cases ht : tag n = true
    · rw [if_pos ht]
      simp only []
      rw [h1, h2, h3, Finset.range_succ, Finset.filter_insert, if_pos ht,
        Finset.filter_insert, if_neg (by simp [ht])]
      refine ⟨rfl, rfl, ?_⟩
      rw [Finset.card_insert_of_not_mem (by simp)]
    · rw [if_neg ht]
      simp only []
      rw [h1, h2, h3, Finset.range_succ, Finset.filter_insert, if_neg ht,
        Finset.filter_insert, if_pos (by simpa using ht)]
      exact ⟨rfl, rfl, rfl⟩

/-- C17: after construction with `n` cores and any tagging, the big mask and the small mask
are disjoint, their union is the set of core ids `[0, n)`, a core id below `n` is in the big
mask iff it is tagged big (no other id is in a mask), and `m_num_big_cores` is the size of
the big mask; nothing is required of the tagging, so either mask may be empty. -/
theorem core_classification_partition (n : Nat) (tag : Nat → Bool) (q seed : Nat) :
    Disjoint (SchedulerBigSmall n tag q seed).m_mask_big
      (SchedulerBigSmall n tag q seed).m_mask_small
    ∧ (SchedulerBigSmall n tag q seed).m_mask_big ∪ (SchedulerBigSmall n tag q seed).m_mask_small
        = Finset.range n
    ∧ (∀ c, c ∈ (SchedulerBigSmall n tag q seed).m_mask_big ↔ c < n ∧ tag c = true)
    ∧ (∀ c, c ∈ (SchedulerBigSmall n tag q seed).m_mask_small ↔ c < n ∧ tag c = false)
    ∧ (SchedulerBigSmall n tag q seed).m_num_big_cores
        = (SchedulerBigSmall n tag q seed).m_mask_big.card := by
  obtain ⟨h1, h2, h3⟩ := ctor_fold_masks tag q seed n n
  have hb : (SchedulerBigSmall n tag q seed).m_mask_big
      = (Finset.range n).filter (fun c => tag c = true) := h1
  have hs : (SchedulerBigSmall n tag q seed).m_mask_small
      = (Finset.range n).filter (fun c => tag c = false) := h2
  have hn : (SchedulerBigSmall n tag q seed).m_num_big_cores
      = ((Finset.range n).filter (fun c => tag c = true)).card := h3
  rw [hb, hs, hn]
  refine ⟨?_, ?_, ?_, ?_, rfl⟩
  · rw [Finset.disjoint_left]
    intro c hc1 hc2
    simp only [Finset.mem_filter] at hc1 hc2
    rw [hc1.2] at hc2
    exact absurd hc2.2 (by decide)
  · ext c
    simp only [Finset.mem_union, Finset.mem_filter, Finset.mem_range]
    constructor
    · rintro (h | h) <;> exact h.1
    · intro h
      cases hc : tag c
      · exact Or.inr ⟨h, rfl⟩
      · exact Or.inl ⟨h, rfl⟩
  · intro c
    simp only [Finset.mem_filter, Finset.mem_range]
  · intro c
    simp only [Finset.mem_filter, Finset.mem_range]

/-! ## IPC sampling -/

theorem subU64_of_le (a b : Nat) (hab : b ≤ a) (ha : a < 2 ^ 64) : subU64 a b = a - b := by
  unfold subU64 u64
  rw [Nat.mod_eq_of_lt ha, Nat.mod_eq_of_lt (by omega : b < 2 ^ 64)]
  omega

theorem toInt32_of_lt (x : Nat) (h : x < 2 ^ 31) : toInt32 x = (x : Int) := by
  unfold toInt32
  have h1 : x % 2 ^ 32 = x := Nat.mod_eq_of_lt (by omega)
  rw [h1, if_pos h]

/-- C15: `get_core_ipc` on a core.  On a call with the references cached, with `d_instr`
the `UInt64` difference of the instruction counter and its cached value and `d_cycles` the
rounded cycle count of the `UInt64` difference of the time counter and its cached value:
if `d_instr * 1000` is below `2 ^ 64` and the quotient below `2 ^ 31`, the IPC becomes
`(d_instr * 1000) / d_cycles` when `d_cycles > 0` and stays what it was when `d_cycles = 0`.
On a first call that finds its telemetry the IPC stays what it was.  In all these cases the
cached counter values become the current ones. -/
theorem get_core_ipc_arithmetic (s : Sched) (tel : Telemetry) (coreId : Nat) :
    ((s.core_info_list coreId).s_time = true → (s.core_info_list coreId).s_instructions = true →
      (s.core_info_list coreId).clock = true →
      subU64 (tel.instruction_count coreId) (s.core_info_list coreId).l_instructions * 1000
        < 2 ^ 64 →
      subU64 (tel.instruction_count coreId) (s.core_info_list coreId).l_instructions * 1000
          / u64 (tel.divideRounded coreId
              (subU64 (tel.elapsed_time coreId) (s.core_info_list coreId).l_time))
        < 2 ^ 31 →
      ∃ s1, get_core_ipc s tel coreId = some s1
        ∧ (0 < u64 (tel.divideRounded coreId
                (subU64 (tel.elapsed_time coreId) (s.core_info_list coreId).l_time)) →
            (s1.core_info_list coreId).ipc
              = ((subU64 (tel.instruction_count coreId) (s.core_info_list coreId).l_instructions
                    * 1000
                  / u64 (tel.divideRounded coreId
                      (subU64 (tel.elapsed_time coreId) (s.core_info_list coreId).l_time)) : Nat)
                  : Int))
        ∧ (u64 (tel.divideRounded coreId
                (subU64 (tel.elapsed_time coreId) (s.core_info_list coreId).l_time)) = 0 →
            (s1.core_info_list coreId).ipc = (s.core_info_list coreId).ipc)
        ∧ (s1.core_info_list coreId).l_instructions = u64 (tel.instruction_count coreId)
        ∧ (s1.core_info_list coreId).l_time = u64 (tel.elapsed_time coreId))
    ∧ ((s.core_info_list coreId).s_time = false → tel.has_time coreId = true →
      tel.has_instructions coreId = true → tel.has_clock coreId = true →
      ∃ s1, get_core_ipc s tel coreId = some s1
        ∧ (s1.core_info_list coreId).ipc = (s.core_info_list coreId).ipc
        ∧ (s1.core_info_list coreId).l_instructions = u64 (tel.instruction_count coreId)
        ∧ (s1.core_info_list coreId).l_time = u64 (tel.elapsed_time coreId)) := by
  refine ⟨?_, ?_⟩
  · intro h1 h2 h3 hmul hquot
    unfold get_core_ipc
    dsimp only
    rw [if_neg (by simp [h1]), if_neg (by simp [h2, h3])]
    refine ⟨_, rfl, ?_, ?_, ?_, ?_⟩
    · intro hpos
      simp only [Function.update_same]
      rw [if_pos (by omega)]
      have hu : u64 (subU64 (tel.instruction_count coreId)
          (s.core_info_list coreId).l_instructions * 1000)
          = subU64 (tel.instruction_count coreId)
              (s.core_info_list coreId).l_instructions * 1000 := by
        unfold u64
        exact Nat.mod_eq_of_lt hmul
      rw [hu, toInt32_of_lt _ hquot]
    · intro hzero
      simp only [Function.update_same]
      rw [if_neg (by omega)]
    · simp only [Function.update_same]
    · simp only [Function.update_same]
  · intro h1 h2 h3 h4
    unfold get_core_ipc
    dsimp only
    rw [if_pos h1, if_pos (by simp [h2, h3, h4])]
    refine ⟨_, rfl, ?_, ?_, ?_⟩ <;> simp only [Function.update_same]

/-- Two samples for C15.  Core 0 of scenario B has its references cached with both cached
counters 0; the counters read 500 instructions and 1000 cycles, so the IPC becomes
`500 * 1000 / 1000 = 500` and the cached values become 500 and 1000.  Core 0 of the fresh
four-core scheduler is sampled for the first time: its IPC stays 0 and the cached values
become 500 and 1000. -/
theorem get_core_ipc_arithmetic_witness :
    (∃ s1, get_core_ipc (twoThreads 1300 450) (tick 500 950) 0 = some s1
      ∧ (s1.core_info_list 0).ipc = 500
      ∧ (s1.core_info_list 0).l_instructions = 500
      ∧ (s1.core_info_list 0).l_time = 1000)
    ∧ (∃ s1, get_core_ipc fresh4 (tick 500 950) 0 = some s1
      ∧ (s1.core_info_list 0).ipc = 0
      ∧ (s1.core_info_list 0).l_instructions = 500
      ∧ (s1.core_info_list 0).l_time = 1000) := by
  obtain ⟨s1, h1, h2, _, h4, h5⟩ :=
    (get_core_ipc_arithmetic (twoThreads 1300 450) (tick 500 950) 0).1 rfl rfl rfl
      (by decide) (by decide)
  obtain ⟨s2, g1, g2, g3, g4⟩ :=
    (get_core_ipc_arithmetic fresh4 (tick 500 950) 0).2 rfl rfl rfl rfl
  exact ⟨⟨s1, h1, h2 (by decide), h4, h5⟩, ⟨s2, g1, g2, g3, g4⟩⟩

/-! ## The victim and the candidate, and the sentinels -/

/-- When some occupied big core has an IPC below `EMPTY_B`, the scan ends on the first
occupied big core of minimal IPC. -/
theorem scan_big_exists (s : Sched) (d : Nat) (hd : d < s.appCores)
    (hdt : s.hasTagBig d = true) (hdo : Occupied s d)
    (hdi : (s.core_info_list d).ipc < EMPTY_B) :
    IsMinBigCore s (scanCores s).big_core
    ∧ (s.core_info_list (scanCores s).big_core).ipc < EMPTY_B := by
  obtain ⟨hmin, hsel⟩ := scan_big_inv s s.appCores
  rw [← scanCores_eq] at hmin hsel
  have h1 := hmin d hd hdt hdo
  rcases hsel with h | ⟨hn, ht, ho, hipc, hlt, hfirst⟩
  · omega
  · refine ⟨⟨hn, ht, ho, ?_, ?_⟩, by rw [hipc]; exact hlt⟩
    · intro c hc hct hco
      rw [hipc]
      exact hmin c hc hct hco
    · intro c hc hct hco
      rw [hipc]
      exact hfirst c hc hct hco

/-- When some occupied small core has an IPC above `EMPTY_S`, the scan ends on the first
occupied small core of maximal IPC. -/
theorem scan_small_exists (s : Sched) (d : Nat) (hd : d < s.appCores)
    (hdt : s.hasTagBig d = false) (hdo : Occupied s d)
    (hdi : EMPTY_S < (s.core_info_list d).ipc) :
    IsMaxSmallCore s (scanCores s).small_core
    ∧ EMPTY_S < (s.core_info_list (scanCores s).small_core).ipc := by
  obtain ⟨hmax, hsel⟩ := scan_small_inv s s.appCores
  rw [← scanCores_eq] at hmax hsel
  have h1 := hmax d hd hdt hdo
  rcases hsel with h | ⟨hn, ht, ho, hipc, hlt, hfirst⟩
  · omega
  · refine ⟨⟨hn, ht, ho, ?_, ?_⟩, by rw [hipc]; exact hlt⟩
    · intro c hc hct hco
      rw [hipc]
      exact hmax c hc hct hco
    · intro c hc hct hco
      rw [hipc]
      exact hfirst c hc hct hco

/-- When no occupied big core has an IPC below `EMPTY_B`, the scan keeps the sentinel. -/
theorem scan_big_none (s : Sched)
    (h : ∀ c, c < s.appCores → s.hasTagBig c = true → Occupied s c →
      EMPTY_B ≤ (s.core_info_list c).ipc) :
    (scanCores s).big_min_ipc = EMPTY_B ∧ bigVictim s = INVALID_THREAD_ID := by
  have hsent : (scanCores s).big_min_ipc = EMPTY_B := by
    rcases (scan_big_inv s s.appCores).2 with h1 | ⟨hn, ht, ho, hipc, hlt, _⟩
    · exact h1.1
    · have := h _ hn ht ho
      rw [← scanCores_eq] at hipc hlt
      rw [← scanCores_eq] at this
      omega
  refine ⟨hsent, ?_⟩
  unfold bigVictim
  rw [if_pos hsent]

/-- When no occupied small core has an IPC above `EMPTY_S`, the scan keeps the sentinel. -/
theorem scan_small_none (s : Sched)
    (h : ∀ c, c < s.appCores → s.hasTagBig c = false → Occupied s c →
      (s.core_info_list c).ipc ≤ EMPTY_S) :
    (scanCores s).small_max_ipc = EMPTY_S ∧ smallCandidate s = INVALID_THREAD_ID := by
  have hsent : (scanCores s).small_max_ipc = EMPTY_S := by
    rcases (scan_small_inv s s.appCores).2 with h1 | ⟨hn, ht, ho, hipc, hlt, _⟩
    · exact h1.1
    · have := h _ hn ht ho
      rw [← scanCores_eq] at hipc hlt
      rw [← scanCores_eq] at this
      omega
  refine ⟨hsent, ?_⟩
  unfold smallCandidate
  rw [if_pos hsent]

/-- C13 (amended): on a gated-open tick with at least four cores whose sampling completes,
if some occupied big core has, after sampling, an IPC below the sentinel `EMPTY_B = 10000`,
the big victim is not `INVALID_THREAD_ID`: it is the thread on an occupied big core whose
IPC is at most the IPC of every occupied big core (the first such core); and if every
occupied big core has an IPC of 10000 or more, the big victim is `INVALID_THREAD_ID`. -/
theorem big_victim_is_minimum (s s1 : Sched) (tel : Telemetry) (time : Nat)
    (hgate : time > s.m_last_reshuffle + s.m_quantum)
    (hcores : 4 ≤ s.appCores)
    (hsample : sampleCores s tel = some s1) :
    (∃ s2, periodic s tel time = some s2)
    ∧ ((∃ d, d < s.appCores ∧ s.hasTagBig d = true ∧ Occupied s d
          ∧ (s1.core_info_list d).ipc < EMPTY_B) →
        bigVictim s1 ≠ INVALID_THREAD_ID
        ∧ ∃ b, IsMinBigCore s1 b ∧ bigVictim s1 = s.m_core_thread_running b)
    ∧ ((∀ c, c < s.appCores → s.hasTagBig c = true → Occupied s c →
          EMPTY_B ≤ (s1.core_info_list c).ipc) →
        bigVictim s1 = INVALID_THREAD_ID) := by
  obtain ⟨hframe, _⟩ := sampleCores_frame s s1 tel hsample
  have hrun : s1.m_core_thread_running = s.m_core_thread_running := by rw [hframe]; rfl
  have htag : s1.hasTagBig = s.hasTagBig := by rw [hframe]; rfl
  have happ : s1.appCores = s.appCores := by rw [hframe]; rfl
  have hocc : ∀ c, Occupied s1 c ↔ Occupied s c := by
    intro c
    unfold Occupied
    rw [hrun]
  refine ⟨⟨_, periodic_open s s1 tel time hgate hcores hsample⟩, ?_, ?_⟩
  · rintro ⟨d, hd, hdt, hdo, hdi⟩
    obtain ⟨hb, hlt⟩ := scan_big_exists s1 d (by rw [happ]; exact hd) (by rw [htag]; exact hdt)
      ((hocc d).mpr hdo) hdi
    obtain ⟨_, _, hv, hne⟩ := selected_big s1 _ hb hlt
    exact ⟨hne, _, hb, by rw [hv, hrun]⟩
  · intro h
    refine (scan_big_none s1 ?_).2
    intro c hc hct hco
    exact h c (by rw [← happ]; exact hc) (by rw [← htag]; exact hct) ((hocc c).mp hco)

/-- Scenario B for C13: the victim is thread 0, on big core 0, the only occupied big core;
the last part is applied to the tick in which core 0, the only occupied big core, has IPC
10000 after sampling. -/
theorem big_victim_is_minimum_witness :
    (∃ s2, periodic (twoThreads 1300 450) (tick 500 950) 2000 = some s2)
    ∧ bigVictim (sampled (twoThreads 1300 450) (tick 500 950)) ≠ INVALID_THREAD_ID
    ∧ (∃ b, IsMinBigCore (sampled (twoThreads 1300 450) (tick 500 950)) b
        ∧ bigVictim (sampled (twoThreads 1300 450) (tick 500 950))
            = (twoThreads 1300 450).m_core_thread_running b)
    ∧ bigVictim (sampled (twoThreads 11300 450) (tick 10000 950)) = INVALID_THREAD_ID := by
  obtain ⟨h1, h2, _⟩ := big_victim_is_minimum (twoThreads 1300 450)
    (sampled (twoThreads 1300 450) (tick 500 950)) (tick 500 950) 2000 (by decide) (by decide)
    scenarioB_sampled.1
  obtain ⟨_, _, g3⟩ := big_victim_is_minimum (twoThreads 11300 450)
    (sampled (twoThreads 11300 450) (tick 10000 950)) (tick 10000 950) 2000 (by decide)
    (by decide) rfl
  obtain ⟨h3, h4⟩ := h2 ⟨0, by decide, by decide, by decide, by decide⟩
  exact ⟨h1, h3, h4, g3 (by decide)⟩

/-- C13 (counterexample): four cores, thread 0 runs on big core 0, the only occupied big
core, with IPC 10000 after sampling; the big victim of the tick is `INVALID_THREAD_ID`, not
the thread on the occupied big core of minimal IPC. -/
theorem big_victim_none_at_sentinel :
    sampleCores (twoThreads 11300 450) (tick 10000 950)
      = some (sampled (twoThreads 11300 450) (tick 10000 950))
    ∧ IsMinBigCore (sampled (twoThreads 11300 450) (tick 10000 950)) 0
    ∧ (twoThreads 11300 450).m_core_thread_running 0 = 0
    ∧ ((sampled (twoThreads 11300 450) (tick 10000 950)).core_info_list 0).ipc = 10000
    ∧ bigVictim (sampled (twoThreads 11300 450) (tick 10000 950)) = INVALID_THREAD_ID :=
  ⟨rfl, by decide, rfl, rfl, rfl⟩


/-- C14 (amended): on a gated-open tick with at least four cores whose sampling completes,
if some occupied small core has, after sampling, an IPC above the sentinel `EMPTY_S = 0`,
the small candidate is not `INVALID_THREAD_ID`: it is the thread on an occupied small core
whose IPC is at least the IPC of every occupied small core (the first such core); and if
every occupied small core has an IPC of 0 or less, the small candidate is
`INVALID_THREAD_ID`. -/
theorem small_candidate_is_maximum (s s1 : Sched) (tel : Telemetry) (time : Nat)
    (hgate : time > s.m_last_reshuffle + s.m_quantum)
    (hcores : 4 ≤ s.appCores)
    (hsample : sampleCores s tel = some s1) :
    (∃ s2, periodic s tel time = some s2)
    ∧ ((∃ d, d < s.appCores ∧ s.hasTagBig d = false ∧ Occupied s d
          ∧ EMPTY_S < (s1.core_info_list d).ipc) →
        smallCandidate s1 ≠ INVALID_THREAD_ID
        ∧ ∃ c, IsMaxSmallCore s1 c ∧ smallCandidate s1 = s.m_core_thread_running c)
    ∧ ((∀ c, c < s.appCores → s.hasTagBig c = false → Occupied s c →
          (s1.core_info_list c).ipc ≤ EMPTY_S) →
        smallCandidate s1 = INVALID_THREAD_ID) := by
  obtain ⟨hframe, _⟩ := sampleCores_frame s s1 tel hsample
  have hrun : s1.m_core_thread_running = s.m_core_thread_running := by rw [hframe]; rfl
  have htag : s1.hasTagBig = s.hasTagBig := by rw [hframe]; rfl
  have happ : s1.appCores = s.appCores := by rw [hframe]; rfl
  have hocc : ∀ c, Occupied s1 c ↔ Occupied s c := by
    intro c
    unfold Occupied
    rw [hrun]
  refine ⟨⟨_, periodic_open s s1 tel time hgate hcores hsample⟩, ?_, ?_⟩
  · rintro ⟨d, hd, hdt, hdo, hdi⟩
    obtain ⟨hc, hlt⟩ := scan_small_exists s1 d (by rw [happ]; exact hd)
      (by rw [htag]; exact hdt) ((hocc d).mpr hdo) hdi
    obtain ⟨_, _, hv, hne⟩ := selected_small s1 _ hc hlt
    exact ⟨hne, _, hc, by rw [hv, hrun]⟩
  · intro h
    refine (scan_small_none s1 ?_).2
    intro c hc hct hco
    exact h c (by rw [← happ]; exact hc) (by rw [← htag]; exact hct) ((hocc c).mp hco)

/-- Scenario B for C14: the candidate is thread 2, on small core 2, the only occupied small
core; the last part is applied to the tick in which core 2, the only occupied small core,
has IPC 0 after sampling. -/
theorem small_candidate_is_maximum_witness :
    (∃ s2, periodic (twoThreads 1300 450) (tick 500 950) 2000 = some s2)
    ∧ smallCandidate (sampled (twoThreads 1300 450) (tick 500 950)) ≠ INVALID_THREAD_ID
    ∧ (∃ c, IsMaxSmallCore (sampled (twoThreads 1300 450) (tick 500 950)) c
        ∧ smallCandidate (sampled (twoThreads 1300 450) (tick 500 950))
            = (twoThreads 1300 450).m_core_thread_running c)
    ∧ smallCandidate (sampled (twoThreads 1300 0) (tick 500 0)) = INVALID_THREAD_ID := by
  obtain ⟨h1, h2, _⟩ := small_candidate_is_maximum (twoThreads 1300 450)
    (sampled (twoThreads 1300 450) (tick 500 950)) (tick 500 950) 2000 (by decide) (by decide)
    scenarioB_sampled.1
  obtain ⟨_, _, g3⟩ := small_candidate_is_maximum (twoThreads 1300 0)
    (sampled (twoThreads 1300 0) (tick 500 0)) (tick 500 0) 2000 (by decide)
    (by decide) rfl
  obtain ⟨h3, h4⟩ := h2 ⟨2, by decide, by decide, by decide, by decide⟩
  exact ⟨h1, h3, h4, g3 (by decide)⟩

/-- C14 (counterexample): four cores, thread 2 runs on small core 2, the only occupied small
core, and retires no instruction in the interval, so its IPC is 0 after sampling; the small
candidate of the tick is `INVALID_THREAD_ID`, not the thread on the occupied small core of
maximal IPC. -/
theorem small_candidate_none_at_sentinel :
    sampleCores (twoThreads 1300 0) (tick 500 0) = some (sampled (twoThreads 1300 0) (tick 500 0))
    ∧ IsMaxSmallCore (sampled (twoThreads 1300 0) (tick 500 0)) 2
    ∧ (twoThreads 1300 0).m_core_thread_running 2 = 2
    ∧ ((sampled (twoThreads 1300 0) (tick 500 0)).core_info_list 2).ipc = 0
    ∧ smallCandidate (sampled (twoThreads 1300 0) (tick 500 0)) = INVALID_THREAD_ID :=
  ⟨rfl, by decide, rfl, rfl, rfl⟩

/-! ## Ticks without a victim or without a candidate -/

theorem moveToBig_effect (s : Sched) (t u : Int) :
    (s.m_thread_isbig u = true → (moveToBig s t).m_thread_isbig u = true)
    ∧ ((moveToBig s t).affinity u = s.affinity u
      ∨ ((moveToBig s t).affinity u = s.m_mask_big ∧ (moveToBig s t).m_thread_isbig u = true)) := by
  unfold moveToBig
  split_ifs with ht
  · exact ⟨fun h => h, Or.inl rfl⟩
  · by_cases hu : u = t
    · subst hu
      simp
    · simp [Function.update_noteq hu]

theorem moveToSmall_effect (s : Sched) (t u : Int) :
    (s.m_thread_isbig u = false → (moveToSmall s t).m_thread_isbig u = false)
    ∧ ((moveToSmall s t).affinity u = s.affinity u
      ∨ ((moveToSmall s t).affinity u = s.m_mask_small
        ∧ (moveToSmall s t).m_thread_isbig u = false)) := by
  unfold moveToSmall
  split_ifs with ht
  · exact ⟨fun h => h, Or.inl rfl⟩
  · by_cases hu : u = t
    · subst hu
      simp
    · simp [Function.update_noteq hu]

/-- The decision when no candidate is selected: nobody is promoted. -/
theorem policy_no_candidate (s : Sched) (h : (scanCores s).small_max_ipc = EMPTY_S) :
    policy s = s ∨ policy s = moveToSmall s (bigVictim s) := by
  have hv : smallCandidate s = INVALID_THREAD_ID := by
    unfold smallCandidate
    rw [if_pos h]
  have hmv : ∀ x : Sched, moveToBig x INVALID_THREAD_ID = x := by
    intro x
    unfold moveToBig
    rw [if_pos rfl]
  unfold policy
  rw [hv, hmv]
  split_ifs
  · exact Or.inr rfl
  · exact Or.inr rfl
  · exact Or.inl rfl
  · exact Or.inl rfl

/-- C12: on a gated-open tick with at least four cores whose sampling completes, the tick
returns and: if no big core has a running thread, the big victim is `INVALID_THREAD_ID` and
nobody is demoted (a class flag that was big stays big, and an affinity that changes becomes
the big mask, of a thread then flagged big); if no small core has a running thread, the
small candidate is `INVALID_THREAD_ID` and nobody is promoted (a class flag that was small
stays small, and an affinity that changes becomes the small mask, of a thread then flagged
small). -/
theorem no_spurious_victim_or_candidate (s s1 : Sched) (tel : Telemetry) (time : Nat)
    (hgate : time > s.m_last_reshuffle + s.m_quantum)
    (hcores : 4 ≤ s.appCores)
    (hsample : sampleCores s tel = some s1) :
    ∃ s2, periodic s tel time = some s2
      ∧ ((∀ c, c < s.appCores → s.hasTagBig c = true → ¬ Occupied s c) →
          bigVictim s1 = INVALID_THREAD_ID
          ∧ (∀ t, s.m_thread_isbig t = true → s2.m_thread_isbig t = true)
          ∧ (∀ t, s2.affinity t = s.affinity t
              ∨ (s2.affinity t = s.m_mask_big ∧ s2.m_thread_isbig t = true)))
      ∧ ((∀ c, c < s.appCores → s.hasTagBig c = false → ¬ Occupied s c) →
          smallCandidate s1 = INVALID_THREAD_ID
          ∧ (∀ t, s.m_thread_isbig t = false → s2.m_thread_isbig t = false)
          ∧ (∀ t, s2.affinity t = s.affinity t
              ∨ (s2.affinity t = s.m_mask_small ∧ s2.m_thread_isbig t = false))) := by
  obtain ⟨hframe, _⟩ := sampleCores_frame s s1 tel hsample
  have hrun : s1.m_core_thread_running = s.m_core_thread_running := by rw [hframe]; rfl
  have htag : s1.hasTagBig = s.hasTagBig := by rw [hframe]; rfl
  have happ : s1.appCores = s.appCores := by rw [hframe]; rfl
  have haff : s1.affinity = s.affinity := by rw [hframe]; rfl
  have hflag : s1.m_thread_isbig = s.m_thread_isbig := by rw [hframe]; rfl
  have hmb : s1.m_mask_big = s.m_mask_big := by rw [hframe]; rfl
  have hms : s1.m_mask_small = s.m_mask_small := by rw [hframe]; rfl
  have hocc : ∀ c, Occupied s1 c ↔ Occupied s c := by
    intro c
    unfold Occupied
    rw [hrun]
  refine ⟨_, periodic_open s s1 tel time hgate hcores hsample, ?_, ?_⟩
  · intro hnone
    obtain ⟨hsent, hv⟩ := scan_big_none s1 (fun c hc hct hco =>
      absurd ((hocc c).mp hco) (hnone c (by rw [← happ]; exact hc) (by rw [← htag]; exact hct)))
    refine ⟨hv, ?_, ?_⟩
    · intro t ht
      show (policy s1).m_thread_isbig t = true
      rw [(policy_no_victim s1 hsent).2]
      split_ifs
      · exact (moveToBig_effect s1 _ t).1 (by rw [hflag]; exact ht)
      · rw [hflag]; exact ht
    · intro t
      show (policy s1).affinity t = s.affinity t
        ∨ ((policy s1).affinity t = s.m_mask_big ∧ (policy s1).m_thread_isbig t = true)
      rw [(policy_no_victim s1 hsent).2, ← haff, ← hmb]
      split_ifs
      · exact (moveToBig_effect s1 _ t).2
      · exact Or.inl rfl
  · intro hnone
    obtain ⟨hsent, hv⟩ := scan_small_none s1 (fun c hc hct hco =>
      absurd ((hocc c).mp hco) (hnone c (by rw [← happ]; exact hc) (by rw [← htag]; exact hct)))
    refine ⟨hv, ?_, ?_⟩
    · intro t ht
      show (policy s1).m_thread_isbig t = false
      rcases policy_no_candidate s1 hsent with hp | hp
      · rw [hp, hflag]; exact ht
      · rw [hp]
        exact (moveToSmall_effect s1 _ t).1 (by rw [hflag]; exact ht)
    · intro t
      show (policy s1).affinity t = s.affinity t
        ∨ ((policy s1).affinity t = s.m_mask_small ∧ (policy s1).m_thread_isbig t = false)
      rw [← haff, ← hms]
      rcases policy_no_candidate s1 hsent with hp | hp
      · rw [hp]; exact Or.inl rfl
      · rw [hp]
        exact (moveToSmall_effect s1 _ t).2

/-- Two ticks for C12: with only small core 2 occupied there is no victim and nobody is
demoted; with only big core 0 occupied there is no candidate and nobody is promoted. -/
theorem no_spurious_victim_or_candidate_witness :
    (∃ s2, periodic (smallOnly 1300 450) (tick 0 950) 2000 = some s2
      ∧ bigVictim (sampled (smallOnly 1300 450) (tick 0 950)) = INVALID_THREAD_ID
      ∧ (∀ t, (smallOnly 1300 450).m_thread_isbig t = true → s2.m_thread_isbig t = true)
      ∧ (∀ t, s2.affinity t = (smallOnly 1300 450).affinity t
          ∨ (s2.affinity t = (smallOnly 1300 450).m_mask_big ∧ s2.m_thread_isbig t = true)))
    ∧ (∃ s2, periodic (bigOnly 1300 450) (tick 500 0) 2000 = some s2
      ∧ smallCandidate (sampled (bigOnly 1300 450) (tick 500 0)) = INVALID_THREAD_ID
      ∧ (∀ t, (bigOnly 1300 450).m_thread_isbig t = false → s2.m_thread_isbig t = false)
      ∧ (∀ t, s2.affinity t = (bigOnly 1300 450).affinity t
          ∨ (s2.affinity t = (bigOnly 1300 450).m_mask_small
            ∧ s2.m_thread_isbig t = false))) := by
  obtain ⟨s2, h1, h2, _⟩ := no_spurious_victim_or_candidate (smallOnly 1300 450)
    (sampled (smallOnly 1300 450) (tick 0 950)) (tick 0 950) 2000 (by decide) (by decide) rfl
  obtain ⟨s3, g1, _, g3⟩ := no_spurious_victim_or_candidate (bigOnly 1300 450)
    (sampled (bigOnly 1300 450) (tick 500 0)) (tick 500 0) 2000 (by decide) (by decide) rfl
  exact ⟨⟨s2, h1, h2 (by decide)⟩, ⟨s3, g1, g3 (by decide)⟩⟩

/-- C20: on a gated-open tick with at least four cores whose sampling completes, in which no
big core has a running thread and some occupied small core has an IPC above 0 after
sampling: the tick returns, there is no victim and a candidate on the first occupied small
core `c` of maximal IPC, no class flag that was big becomes small, and
* if the running mean of core 0 is strictly positive and the IPC of `c`, compared as
  `float`, is strictly above the running mean of `c`, the candidate gets class flag big and
  the big mask, and no other thread changes;
* otherwise no class flag and no affinity changes.
The mean read for the absent victim is that of core 0, whatever its class or occupancy. -/
theorem no_victim_decision (s s1 : Sched) (tel : Telemetry) (time : Nat)
    (hgate : time > s.m_last_reshuffle + s.m_quantum)
    (hcores : 4 ≤ s.appCores)
    (hsample : sampleCores s tel = some s1)
    (hnobig : ∀ c, c < s.appCores → s.hasTagBig c = true → ¬ Occupied s c)
    (hsmall : ∃ d, d < s.appCores ∧ s.hasTagBig d = false ∧ Occupied s d
      ∧ 0 < (s1.core_info_list d).ipc) :
    ∃ s2 c, periodic s tel time = some s2
      ∧ IsMaxSmallCore s1 c
      ∧ smallCandidate s1 = s.m_core_thread_running c
      ∧ smallCandidate s1 ≠ INVALID_THREAD_ID
      ∧ bigVictim s1 = INVALID_THREAD_ID
      ∧ (∀ t, s.m_thread_isbig t = true → s2.m_thread_isbig t = true)
      ∧ (0 < s1.stat_mean 0 ∧ intToFloat (s1.core_info_list c).ipc > s1.stat_mean c →
          s2.m_thread_isbig (s.m_core_thread_running c) = true
          ∧ s2.affinity (s.m_core_thread_running c) = s.m_mask_big
          ∧ ∀ u, u ≠ s.m_core_thread_running c →
              s2.m_thread_isbig u = s.m_thread_isbig u ∧ s2.affinity u = s.affinity u)
      ∧ (¬ (0 < s1.stat_mean 0 ∧ intToFloat (s1.core_info_list c).ipc > s1.stat_mean c) →
          s2.m_thread_isbig = s.m_thread_isbig ∧ s2.affinity = s.affinity) := by
  obtain ⟨hframe, _⟩ := sampleCores_frame s s1 tel hsample
  have hrun : s1.m_core_thread_running = s.m_core_thread_running := by rw [hframe]; rfl
  have htag : s1.hasTagBig = s.hasTagBig := by rw [hframe]; rfl
  have happ : s1.appCores = s.appCores := by rw [hframe]; rfl
  have haff : s1.affinity = s.affinity := by rw [hframe]; rfl
  have hflag : s1.m_thread_isbig = s.m_thread_isbig := by rw [hframe]; rfl
  have hmb : s1.m_mask_big = s.m_mask_big := by rw [hframe]; rfl
  have hocc : ∀ c, Occupied s1 c ↔ Occupied s c := by
    intro c
    unfold Occupied
    rw [hrun]
  obtain ⟨hsent, hv⟩ := scan_big_none s1 (fun c hc hct hco =>
    absurd ((hocc c).mp hco) (hnobig c (by rw [← happ]; exact hc) (by rw [← htag]; exact hct)))
  obtain ⟨d, hd, hdt, hdo, hdi⟩ := hsmall
  obtain ⟨hc, hlt⟩ := scan_small_exists s1 d (by rw [happ]; exact hd)
    (by rw [htag]; exact hdt) ((hocc d).mpr hdo) hdi
  obtain ⟨_, hmax, hcand, hne⟩ := selected_small s1 _ hc hlt
  have hpol := (policy_no_victim s1 hsent).2
  rw [hmax, float_0, hcand, hrun] at hpol
  have hne' : s.m_core_thread_running (scanCores s1).small_core ≠ INVALID_THREAD_ID := by
    rw [← hrun, ← hcand]
    exact hne
  refine ⟨_, (scanCores s1).small_core, periodic_open s s1 tel time hgate hcores hsample,
    hc, by rw [hcand, hrun], hne, hv, ?_, ?_, ?_⟩
  · intro t ht
    show (policy s1).m_thread_isbig t = true
    rw [hpol]
    split_ifs
    · exact (moveToBig_effect s1 _ t).1 (by rw [hflag]; exact ht)
    · rw [hflag]; exact ht
  · intro hcond
    show (policy s1).m_thread_isbig _ = true ∧ (policy s1).affinity _ = s.m_mask_big ∧ ∀ u, _ →
      (policy s1).m_thread_isbig u = _ ∧ (policy s1).affinity u = _
    rw [hpol, if_pos hcond, moveToBig_valid _ _ hne', hflag, haff, hmb]
    refine ⟨by simp, by simp, ?_⟩
    intro u hu
    simp [Function.update_noteq hu]
  · intro hcond
    show (policy s1).m_thread_isbig = _ ∧ (policy s1).affinity = _
    rw [hpol, if_neg hcond]
    exact ⟨hflag, haff⟩

/-- A tick for C20: big core 0 has been left by its thread, its running mean is still 1300;
thread 2 on small core 2 has IPC 950 after sampling, above its running mean 700. -/
theorem no_victim_decision_witness :
    ∃ s2 c, periodic (smallOnly 1300 450) (tick 0 950) 2000 = some s2
      ∧ IsMaxSmallCore (sampled (smallOnly 1300 450) (tick 0 950)) c
      ∧ smallCandidate (sampled (smallOnly 1300 450) (tick 0 950))
          = (smallOnly 1300 450).m_core_thread_running c
      ∧ smallCandidate (sampled (smallOnly 1300 450) (tick 0 950)) ≠ INVALID_THREAD_ID
      ∧ bigVictim (sampled (smallOnly 1300 450) (tick 0 950)) = INVALID_THREAD_ID
      ∧ (∀ t, (smallOnly 1300 450).m_thread_isbig t = true → s2.m_thread_isbig t = true)
      ∧ (0 < (sampled (smallOnly 1300 450) (tick 0 950)).stat_mean 0
          ∧ intToFloat ((sampled (smallOnly 1300 450) (tick 0 950)).core_info_list c).ipc
            > (sampled (smallOnly 1300 450) (tick 0 950)).stat_mean c →
          s2.m_thread_isbig ((smallOnly 1300 450).m_core_thread_running c) = true
          ∧ s2.affinity ((smallOnly 1300 450).m_core_thread_running c)
              = (smallOnly 1300 450).m_mask_big
          ∧ ∀ u, u ≠ (smallOnly 1300 450).m_core_thread_running c →
              s2.m_thread_isbig u = (smallOnly 1300 450).m_thread_isbig u
              ∧ s2.affinity u = (smallOnly 1300 450).affinity u)
      ∧ (¬ (0 < (sampled (smallOnly 1300 450) (tick 0 950)).stat_mean 0
          ∧ intToFloat ((sampled (smallOnly 1300 450) (tick 0 950)).core_info_list c).ipc
            > (sampled (smallOnly 1300 450) (tick 0 950)).stat_mean c) →
          s2.m_thread_isbig = (smallOnly 1300 450).m_thread_isbig
          ∧ s2.affinity = (smallOnly 1300 450).affinity) :=
  no_victim_decision (smallOnly 1300 450) (sampled (smallOnly 1300 450) (tick 0 950))
    (tick 0 950) 2000 (by decide) (by decide) rfl (by decide)
    ⟨2, by decide, by decide, by decide, by decide⟩

/-! ## The first tick -/

theorem mean_first_sample : divFloat (intToFloat (0 + 0)) (intToFloat (0 + 1)) = 0 := by
  have h := divFloat_exact 0 1 0 (by decide) (by decide) (by decide) (by decide) (by decide)
  simpa using h

/-- One step of the first loop on a core that was never sampled, in a state where every IPC
and every running mean is 0: the step completes and leaves every IPC and every mean at 0. -/
theorem sampleStep_first (s : Sched) (tel : Telemetry) (c : Nat)
    (hipc : ∀ d, d < s.appCores → (s.core_info_list d).ipc = 0)
    (hmean : ∀ d, d < STAT_SLOTS → s.stat_mean d = 0)
    (hnew : (s.core_info_list c).s_time = false)
    (hstat : c < STAT_SLOTS → s.stat_i c = 0 ∧ s.stat_sum c = 0)
    (hc : c < s.appCores)
    (hslot : Occupied s c → c < STAT_SLOTS)
    (htel : Occupied s c →
      tel.has_time c = true ∧ tel.has_instructions c = true ∧ tel.has_clock c = true) :
    ∃ s1, sampleStep tel s c = some s1
      ∧ (∀ d, d < s1.appCores → (s1.core_info_list d).ipc = 0)
      ∧ (∀ d, d < STAT_SLOTS → s1.stat_mean d = 0)
      ∧ (∀ d, d ≠ c → (s1.core_info_list d).s_time = (s.core_info_list d).s_time
          ∧ s1.stat_i d = s.stat_i d ∧ s1.stat_sum d = s.stat_sum d) := by
  unfold sampleStep
  by_cases hfree : s.m_core_thread_running c = INVALID_THREAD_ID
  · rw [if_pos hfree]
    refine ⟨_, rfl, ?_, hmean, ?_⟩
    · intro d hd
      by_cases hdc : d = c
      · subst hdc
        simp
      · simp only [Function.update_noteq hdc]
        exact hipc d hd
    · intro d hdc
      simp [Function.update_noteq hdc]
  · rw [if_neg hfree]
    obtain ⟨t1, t2, t3⟩ := htel hfree
    have hslot' : ¬ STAT_SLOTS ≤ c := by
      have := hslot hfree
      omega
    obtain ⟨hi, hsum⟩ := hstat (hslot hfree)
    have hg : get_core_ipc s tel c = some
        { s with
          core_info_list := Function.update s.core_info_list c
            { s.core_info_list c with
              s_time := true, s_instructions := true, clock := true
              l_time := u64 (tel.elapsed_time c)
              l_instructions := u64 (tel.instruction_count c) } } := by
      unfold get_core_ipc
      dsimp only
      rw [if_pos hnew, if_pos (by simp [t1, t2, t3])]
    rw [hg]
    simp only []
    unfold updateStats
    dsimp only
    rw [if_neg hslot']
    simp only [Function.update_same]
    rw [hi, hsum, hipc c hc, mean_first_sample]
    refine ⟨_, rfl, ?_, ?_, ?_⟩
    · intro d hd
      by_cases hdc : d = c
      · subst hdc
        simp
      · simp only [Function.update_noteq hdc]
        exact hipc d hd
    · intro d hd
      by_cases hdc : d = c
      · subst hdc
        simp only [Function.update_same]
      · simp only [Function.update_noteq hdc]
        exact hmean d hd
    · intro d hdc
      simp [Function.update_noteq hdc]

/-- The first loop over cores that were never sampled, none listed twice: it completes and
leaves every IPC and every mean at 0. -/
theorem sampleLoop_first (tel : Telemetry) (l : List Nat) :
    ∀ s : Sched, l.Nodup →
      (∀ d, d < s.appCores → (s.core_info_list d).ipc = 0) →
      (∀ d, d < STAT_SLOTS → s.stat_mean d = 0) →
      (∀ c, c ∈ l → (s.core_info_list c).s_time = false
        ∧ (c < STAT_SLOTS → s.stat_i c = 0 ∧ s.stat_sum c = 0)) →
      (∀ c, c ∈ l → c < s.appCores ∧ (Occupied s c → c < STAT_SLOTS
        ∧ tel.has_time c = true ∧ tel.has_instructions c = true ∧ tel.has_clock c = true)) →
      ∃ s1, sampleLoop tel s l = some s1
        ∧ (∀ d, d < s1.appCores → (s1.core_info_list d).ipc = 0)
        ∧ (∀ d, d < STAT_SLOTS → s1.stat_mean d = 0) := by
  induction l with
  | nil =>
    intro s _ hipc hmean _ _
    exact ⟨s, rfl, hipc, hmean⟩
  | cons c l ih =>
    intro s hnd hipc hmean hnew hok
    obtain ⟨hcl, hnd'⟩ := List.nodup_cons.mp hnd
    obtain ⟨hn1, hn2⟩ := hnew c (List.mem_cons_self c l)
    obtain ⟨hc, hocc⟩ := hok c (List.mem_cons_self c l)
    obtain ⟨s0, hs0, h1, h2, h3⟩ := sampleStep_first s tel c hipc hmean hn1 hn2 hc
      (fun ho => (hocc ho).1) (fun ho => (hocc ho).2)
    obtain ⟨hframe, _⟩ := sampleStep_frame s s0 tel c hs0
    have happ : s0.appCores = s.appCores := by rw [hframe]; rfl
    have hrun : s0.m_core_thread_running = s.m_core_thread_running := by rw [hframe]; rfl
    obtain ⟨s1, hs1, g1, g2⟩ := ih s0 hnd' h1 h2
      (by
        intro d hd
        have hdc : d ≠ c := fun h => hcl (h ▸ hd)
        obtain ⟨e1, e2, e3⟩ := h3 d hdc
        obtain ⟨f1, f2⟩ := hnew d (List.mem_cons_of_mem c hd)
        rw [e1, e2, e3]
        exact ⟨f1, f2⟩)
      (by
        intro d hd
        obtain ⟨f1, f2⟩ := hok d (List.mem_cons_of_mem c hd)
        refine ⟨by rw [happ]; exact f1, ?_⟩
        intro ho
        unfold Occupied at ho
        rw [hrun] at ho
        exact f2 ho)
    refine ⟨s1, ?_, g1, g2⟩
    unfold sampleLoop
    rw [hs0]
    exact hs1

/-- In a sampled state where every IPC and every mean is 0 the decision changes nothing. -/
theorem policy_all_zero (s : Sched)
    (hipc : ∀ d, d < s.appCores → (s.core_info_list d).ipc = 0)
    (hmean : ∀ d, d < STAT_SLOTS → s.stat_mean d = 0)
    (hslot : ∀ c, c < s.appCores → Occupied s c → c < STAT_SLOTS) :
    policy s = s := by
  have hmin : bigMinIpc s = 0 ∧ s.stat_mean (scanCores s).big_core = 0 := by
    unfold bigMinIpc
    rcases (scan_big_inv s s.appCores).2 with h | ⟨hn, _, ho, hi, _, _⟩
    · rw [← scanCores_eq] at h
      rw [if_pos h.1, h.2]
      exact ⟨rfl, hmean 0 (by decide)⟩
    · rw [← scanCores_eq] at hn ho hi
      refine ⟨?_, hmean _ (hslot _ hn ho)⟩
      split_ifs
      · rfl
      · rw [← hi]
        exact hipc _ hn
  unfold policy
  rw [hmin.1, hmin.2, float_0, if_neg (lt_irrefl 0)]

/-- The first gated-open tick on a state in which no core was sampled yet changes neither a
class flag nor an affinity, provided its accesses stay inside their tables and the telemetry
of the occupied cores is found. -/
theorem first_tick_unsampled (s : Sched) (tel : Telemetry) (time : Nat)
    (hinit : ∀ c, c < s.appCores → s.core_info_list c = info_init)
    (hstat : ∀ c, c < STAT_SLOTS → s.stat_i c = 0 ∧ s.stat_sum c = 0 ∧ s.stat_mean c = 0)
    (hgate : time > s.m_last_reshuffle + s.m_quantum)
    (hcores : 4 ≤ s.appCores)
    (hslot : ∀ c, c < s.appCores → Occupied s c → c < STAT_SLOTS)
    (htel : ∀ c, c < s.appCores → Occupied s c →
      tel.has_time c = true ∧ tel.has_instructions c = true ∧ tel.has_clock c = true) :
    ∃ s2, periodic s tel time = some s2
      ∧ s2.m_thread_isbig = s.m_thread_isbig ∧ s2.affinity = s.affinity
      ∧ (∀ c, c < s.appCores → (s2.core_info_list c).ipc = 0)
      ∧ (∀ c, c < STAT_SLOTS → s2.stat_mean c = 0) := by
  obtain ⟨s1, hs1, g1, g2⟩ := sampleLoop_first tel (List.range s.appCores) s
    (List.nodup_range s.appCores)
    (fun d hd => by rw [hinit d hd]; rfl)
    (fun d hd => (hstat d hd).2.2)
    (fun c hc => ⟨by rw [hinit c (List.mem_range.mp hc)]; rfl,
      fun h4 => ⟨(hstat c h4).1, (hstat c h4).2.1⟩⟩)
    (fun c hc => ⟨List.mem_range.mp hc, fun ho =>
      ⟨hslot c (List.mem_range.mp hc) ho, htel c (List.mem_range.mp hc) ho⟩⟩)
  have hsample : sampleCores s tel = some s1 := hs1
  obtain ⟨hframe, _⟩ := sampleCores_frame s s1 tel hsample
  have happ : s1.appCores = s.appCores := by rw [hframe]; rfl
  have hrun : s1.m_core_thread_running = s.m_core_thread_running := by rw [hframe]; rfl
  have hpol : policy s1 = s1 := policy_all_zero s1 g1 g2 (by
    intro c hc ho
    unfold Occupied at ho
    rw [hrun] at ho
    exact hslot c (by rw [← happ]; exact hc) ho)
  refine ⟨_, periodic_open s s1 tel time hgate hcores hsample, ?_, ?_, ?_, ?_⟩
  · show (policy s1).m_thread_isbig = _
    rw [hpol, hframe]
    rfl
  · show (policy s1).affinity = _
    rw [hpol, hframe]
    rfl
  · intro c hc
    show ((policy s1).core_info_list c).ipc = 0
    rw [hpol]
    exact g1 c (by rw [happ]; exact hc)
  · intro c hc
    show (policy s1).stat_mean c = 0
    rw [hpol]
    exact g2 c hc

theorem ctor_fold_unsampled (l : List Nat) (s : Sched) :
    (l.foldl ctorStep s).m_quantum = s.m_quantum
    ∧ (l.foldl ctorStep s).m_last_reshuffle = s.m_last_reshuffle
    ∧ (l.foldl ctorStep s).stat_i = s.stat_i
    ∧ (l.foldl ctorStep s).stat_sum = s.stat_sum
    ∧ (l.foldl ctorStep s).stat_mean = s.stat_mean
    ∧ ((∀ c, s.core_info_list c = info_init) →
        ∀ c, (l.foldl ctorStep s).core_info_list c = info_init) := by
  induction l generalizing s with
  | nil => simp
  | cons d l ih =>
    rw [List.foldl_cons]
    obtain ⟨h1, h2, h3, h4, h5, h6⟩ := ih (ctorStep s d)
    rw [h1, h2, h3, h4, h5]
    have hstep : (ctorStep s d).m_quantum = s.m_quantum
        ∧ (ctorStep s d).m_last_reshuffle = s.m_last_reshuffle
        ∧ (ctorStep s d).stat_i = s.stat_i
        ∧ (ctorStep s d).stat_sum = s.stat_sum
        ∧ (ctorStep s d).stat_mean = s.stat_mean
        ∧ (ctorStep s d).core_info_list = Function.update s.core_info_list d info_init := by
      unfold ctorStep
      split <;> simp
    refine ⟨hstep.1, hstep.2.1, hstep.2.2.1, hstep.2.2.2.1, hstep.2.2.2.2.1, ?_⟩
    intro hinit
    refine h6 ?_
    intro c
    rw [hstep.2.2.2.2.2]
    by_cases hc : c = d
    · subst hc
      simp
    · rw [Function.update_noteq hc]
      exact hinit c

/-- C19: take the constructed state, with any occupancy of the cores (and any thread
records, class flags and cursor).  On the first gated-open tick, with at least four cores,
every occupied core among the cores 0..3 and its telemetry found, the tick returns and
changes no class flag and no affinity: after it every core has IPC 0 and every running mean
is 0, so no IPC is strictly below its mean. -/
theorem first_tick_never_rebalances (n : Nat) (tag : Nat → Bool) (q seed : Nat)
    (occ : Nat → Int) (run : Int → Bool) (aff : Int → Finset Nat) (flags : Int → Bool)
    (cursor threads : Nat) (tel : Telemetry) (time : Nat)
    (hgate : time > q)
    (hcores : 4 ≤ n)
    (hslot : ∀ c, c < n → occ c ≠ INVALID_THREAD_ID → c < STAT_SLOTS)
    (htel : ∀ c, c < n → occ c ≠ INVALID_THREAD_ID →
      tel.has_time c = true ∧ tel.has_instructions c = true ∧ tel.has_clock c = true) :
    ∃ s2, periodic
        { SchedulerBigSmall n tag q seed with
          m_core_thread_running := occ, isRunning := run, affinity := aff
          m_thread_isbig := flags, m_next_core := cursor, numThreads := threads } tel time
        = some s2
      ∧ s2.m_thread_isbig = flags ∧ s2.affinity = aff
      ∧ (∀ c, c < n → (s2.core_info_list c).ipc = 0)
      ∧ (∀ c, c < STAT_SLOTS → s2.stat_mean c = 0) := by
  obtain ⟨h1, h2, h3, h4, h5, h6⟩ :=
    ctor_fold_unsampled (List.range n) (ctorInit n tag q seed)
  have happ : (SchedulerBigSmall n tag q seed).appCores = n := ctor_appCores n tag q seed
  obtain ⟨s2, hp, g1, g2, g3, g4⟩ := first_tick_unsampled
    { SchedulerBigSmall n tag q seed with
      m_core_thread_running := occ, isRunning := run, affinity := aff
      m_thread_isbig := flags, m_next_core := cursor, numThreads := threads } tel time
    (fun c _ => h6 (fun _ => rfl) c)
    (fun c _ => ⟨by show (List.foldl ctorStep _ _).stat_i c = 0; rw [h3]; rfl,
      by show (List.foldl ctorStep _ _).stat_sum c = 0; rw [h4]; rfl,
      by show (List.foldl ctorStep _ _).stat_mean c = 0; rw [h5]; rfl⟩)
    (by
      show time > (List.foldl ctorStep _ _).m_last_reshuffle
        + (List.foldl ctorStep _ _).m_quantum
      rw [h1, h2]
      show time > 0 + q
      omega)
    (by show 4 ≤ (SchedulerBigSmall n tag q seed).appCores; rw [happ]; exact hcores)
    (fun c hc ho => hslot c (by rw [← happ]; exact hc) ho)
    (fun c hc ho => htel c (by rw [← happ]; exact hc) ho)
  exact ⟨s2, hp, g1, g2,
    fun c hc => g3 c (by
      show c < (SchedulerBigSmall n tag q seed).appCores
      rw [happ]
      exact hc), g4⟩

/-- The first tick of C19 on four cores, each running the thread of its own id. -/
theorem first_tick_never_rebalances_witness :
    ∃ s2, periodic
        { SchedulerBigSmall 4 tagsA 1000 0 with
          m_core_thread_running := fun c => (c : Int), isRunning := fun _ => true
          affinity := fun t => {t.toNat}
          m_thread_isbig := fun _ => false, m_next_core := 1, numThreads := 4 }
        (tick 500 950) 2000
        = some s2
      ∧ s2.m_thread_isbig = (fun _ => false) ∧ s2.affinity = (fun t => {t.toNat})
      ∧ (∀ c, c < 4 → (s2.core_info_list c).ipc = 0)
      ∧ (∀ c, c < STAT_SLOTS → s2.stat_mean c = 0) :=
  first_tick_never_rebalances 4 tagsA 1000 0 (fun c => (c : Int)) (fun _ => true)
    (fun t => {t.toNat}) (fun _ => false) 1 4 (tick 500 950) 2000 (by decide) (by decide)
    (fun c hc _ => hc) (fun _ _ _ => ⟨rfl, rfl, rfl⟩)

/-! ## Core counts other than four -/

/-- C18 (code at the failing inputs): with two cores, both occupied, a gated-open tick
samples both cores and then reads entries 2 and 3 of `core_info_list` and of
`m_core_thread_running` for printing, outside the two-entry vectors; with five cores and a
thread on core 4, the first loop writes entry 4 of the static tables `i`, `sum`, `mean`
and `sum_var`, which have four entries.  Neither tick has a defined result. -/
theorem periodic_leaves_its_tables :
    twoCoresFull.appCores = 2
    ∧ (∃ s1, sampleCores twoCoresFull (tick 0 0) = some s1 ∧ decision s1 = none)
    ∧ periodic twoCoresFull (tick 0 0) 2000 = none
    ∧ fiveCores.appCores = 5
    ∧ Occupied fiveCores 4
    ∧ (∀ s : Sched, updateStats s 4 = none)
    ∧ sampleCores fiveCores (tick 0 0) = none
    ∧ periodic fiveCores (tick 0 0) 2000 = none :=
  ⟨rfl, ⟨_, rfl, rfl⟩, rfl, rfl, by decide, fun _ => rfl, rfl, rfl⟩

/-! ## The fallback of the placement scan -/

theorem getNextCore_pos (n c : Nat) : 1 ≤ getNextCore n c := by
  unfold getNextCore
  split_ifs <;> omega

/-- The scan below the start core: from a core `x` with `1 ≤ x < c`, every core occupied, the
scan walks up to `c` and returns it. -/
theorem scan_below_start (s : Sched) (c : Nat) (hc : c < s.appCores)
    (hfull : ∀ d, d < s.appCores → s.m_core_thread_running d ≠ INVALID_THREAD_ID) :
    ∀ (k x fuel : Nat), x + k + 1 = c → k + 1 ≤ fuel →
      getFreeCoreLoop s c fuel x = Run.done c := by
  intro k
  induction k with
  | zero =>
    intro x fuel hx hfuel
    obtain ⟨f, rfl⟩ : ∃ f, fuel = f + 1 := ⟨fuel - 1, by omega⟩
    unfold getFreeCoreLoop
    rw [if_neg (by omega), if_neg (hfull x (by omega)), getNextCore_lt _ _ (by omega),
      if_neg (by omega)]
  | succ k ih =>
    intro x fuel hx hfuel
    obtain ⟨f, rfl⟩ : ∃ f, fuel = f + 1 := ⟨fuel - 1, by omega⟩
    unfold getFreeCoreLoop
    rw [if_neg (by omega), if_neg (hfull x (by omega)), getNextCore_lt _ _ (by omega),
      if_pos (by omega)]
    exact ih (x + 1) f (by omega) (by omega)

/-- The scan from the start core upward: from a core `x` with `c ≤ x`, every core occupied,
the scan walks to the last core, wraps to core 1, walks up to `c` and returns it. -/
theorem scan_from_start (s : Sched) (c : Nat) (hpos : 1 ≤ c) (hc : c < s.appCores)
    (hfull : ∀ d, d < s.appCores → s.m_core_thread_running d ≠ INVALID_THREAD_ID) :
    ∀ (e x fuel : Nat), c ≤ x → x + e + 1 = s.appCores → e + c ≤ fuel →
      getFreeCoreLoop s c fuel x = Run.done c := by
  intro e
  induction e with
  | zero =>
    intro x fuel hcx hx hfuel
    obtain ⟨f, rfl⟩ : ∃ f, fuel = f + 1 := ⟨fuel - 1, by omega⟩
    have hnext : getNextCore s.appCores x = 1 := by
      have hx' : x + 1 = s.appCores := by omega
      unfold getNextCore
      rw [if_pos (by omega), hx', Nat.mod_self]
    unfold getFreeCoreLoop
    rw [if_neg (by omega), if_neg (hfull x (by omega)), hnext]
    by_cases h1 : c = 1
    · rw [if_neg (by omega)]
    · rw [if_pos (by omega)]
      exact scan_below_start s c hc hfull (c - 2) 1 f (by omega) (by omega)
  | succ e ih =>
    intro x fuel hcx hx hfuel
    obtain ⟨f, rfl⟩ : ∃ f, fuel = f + 1 := ⟨fuel - 1, by omega⟩
    unfold getFreeCoreLoop
    rw [if_neg (by omega), if_neg (hfull x (by omega)), getNextCore_lt _ _ (by omega),
      if_pos (by omega)]
    exact ih (x + 1) f (by omega) (by omega) (by omega)

/-- C6: the oversubscription fallback.  When every core has a running thread, the scan of
`getFreeCore` from a start cursor `c` with `1 ≤ c < N` ends within `N` iterations, after a
full cycle `c, ..., N-1, 1, ..., c-1`, and returns the start core `c`.  These are all the
cursors the scan is started from while a thread runs: every cursor that
`threadSetInitialAffinity` stores is a value of `getNextCore`, hence at least 1, and the
initial cursor 0 is only met in the constructed state, where core 0 is free and is returned
at once. -/
theorem getFreeCore_fallback :
    (∀ (s : Sched) (c fuel : Nat), 1 ≤ c → c < s.appCores →
        (∀ d, d < s.appCores → s.m_core_thread_running d ≠ INVALID_THREAD_ID) →
        s.appCores ≤ fuel →
        getFreeCore s fuel c = Run.done c)
    ∧ (∀ (s s1 : Sched) (fuel : Nat) (t : Int),
        threadSetInitialAffinity s fuel t = Run.done s1 → 1 ≤ s1.m_next_core)
    ∧ (∀ (n : Nat) (tag : Nat → Bool) (q seed fuel : Nat), 1 ≤ n →
        (SchedulerBigSmall n tag q seed).m_next_core = 0
        ∧ (∀ d, (SchedulerBigSmall n tag q seed).m_core_thread_running d = INVALID_THREAD_ID)
        ∧ getFreeCore (SchedulerBigSmall n tag q seed) (fuel + 1) 0 = Run.done 0) := by
  refine ⟨?_, ?_, ?_⟩
  · intro s c fuel hpos hc hfull hfuel
    unfold getFreeCore
    exact scan_from_start s c hpos hc hfull (s.appCores - 1 - c) c fuel le_rfl (by omega)
      (by omega)
  · intro s s1 fuel t h
    unfold threadSetInitialAffinity at h
    cases hg : getFreeCore s fuel s.m_next_core with
    | done c =>
      rw [hg] at h
      simp only [Run.done.injEq] at h
      rw [← h]
      exact getNextCore_pos _ _
    | fault => rw [hg] at h; simp at h
    | fuelOut => rw [hg] at h; simp at h
  · intro n tag q seed fuel hn
    refine ⟨rfl, ctor_running n tag q seed, ?_⟩
    exact getFreeCore_free _ fuel 0 (by rw [ctor_appCores]; omega) (ctor_running n tag q seed 0)

/-- The fallback of C6 on four occupied cores: from the cursors 1 and 3 the scan returns the
cursor; a placement on the fresh four cores stores the cursor 1; the fresh scheduler returns
core 0 from the cursor 0. -/
theorem getFreeCore_fallback_witness :
    getFreeCore scenarioD 4 1 = Run.done 1
    ∧ getFreeCore scenarioD 4 3 = Run.done 3
    ∧ (∃ s1, threadSetInitialAffinity fresh4 1 0 = Run.done s1 ∧ 1 ≤ s1.m_next_core)
    ∧ getFreeCore (SchedulerBigSmall 4 tagsA 1000 0) (0 + 1) 0 = Run.done 0 :=
  ⟨getFreeCore_fallback.1 scenarioD 1 4 (by decide) (by decide) (by decide) (by decide),
    getFreeCore_fallback.1 scenarioD 3 4 (by decide) (by decide) (by decide) (by decide),
    ⟨_, rfl, getFreeCore_fallback.2.1 fresh4 _ 1 0 rfl⟩,
    (getFreeCore_fallback.2.2 4 tagsA 1000 0 0 (by decide)).2.2⟩

/-! ## How many running threads hold big status -/

/-- A demotion keeps this true: every thread flagged big has the big mask as its affinity and
is one of the threads created so far. -/
theorem moveToSmall_keeps_big (s : Sched) (v : Int)
    (h : ∀ t, s.m_thread_isbig t = true →
      s.affinity t = s.m_mask_big ∧ 0 ≤ t ∧ t < (s.numThreads : Int)) :
    ∀ t, (moveToSmall s v).m_thread_isbig t = true →
      (moveToSmall s v).affinity t = (moveToSmall s v).m_mask_big
      ∧ 0 ≤ t ∧ t < ((moveToSmall s v).numThreads : Int) := by
  intro t ht
  unfold moveToSmall at ht ⊢
  split_ifs at ht ⊢ with hv
  · exact h t ht
  · by_cases htv : t = v
    · subst htv
      simp at ht
    · simp only [Function.update_noteq htv] at ht ⊢
      exact h t ht

/-- A promotion of a thread created so far keeps the same true. -/
theorem moveToBig_keeps_big (s : Sched) (p : Int)
    (hp : p ≠ INVALID_THREAD_ID → 0 ≤ p ∧ p < (s.numThreads : Int))
    (h : ∀ t, s.m_thread_isbig t = true →
      s.affinity t = s.m_mask_big ∧ 0 ≤ t ∧ t < (s.numThreads : Int)) :
    ∀ t, (moveToBig s p).m_thread_isbig t = true →
      (moveToBig s p).affinity t = (moveToBig s p).m_mask_big
      ∧ 0 ≤ t ∧ t < ((moveToBig s p).numThreads : Int) := by
  intro t ht
  unfold moveToBig at ht ⊢
  split_ifs at ht ⊢ with hv
  · exact h t ht
  · by_cases htp : t = p
    · subst htp
      exact ⟨by simp, hp hv⟩
    · simp only [Function.update_noteq htp] at ht ⊢
      exact h t ht

/-- The candidate of a tick is `INVALID_THREAD_ID` or the thread on a core. -/
theorem smallCandidate_on_core (s : Sched) :
    smallCandidate s = INVALID_THREAD_ID
    ∨ ∃ c, c < s.appCores ∧ smallCandidate s = s.m_core_thread_running c := by
  unfold smallCandidate
  split_ifs with h
  · exact Or.inl rfl
  · rcases (scan_small_inv s s.appCores).2 with h1 | h1
    · rw [← scanCores_eq] at h1
      exact absurd h1.1 h
    · rw [← scanCores_eq] at h1
      exact Or.inr ⟨_, h1.1, rfl⟩

theorem mem_eligible_lt (s : Sched) (t : Int) (h : t ∈ eligible s) :
    t < (s.numThreads : Int) := by
  unfold eligible at h
  simp only [List.mem_filter, List.mem_map, List.mem_range] at h
  obtain ⟨⟨a, ha, rfl⟩, _⟩ := h
  exact_mod_cast ha

theorem ctor_fold_base (l : List Nat) (s : Sched) :
    (l.foldl ctorStep s).isRunning = s.isRunning
    ∧ (l.foldl ctorStep s).numThreads = s.numThreads := by
  induction l generalizing s with
  | nil => simp
  | cons c l ih =>
    rw [List.foldl_cons]
    obtain ⟨h1, h2⟩ := ih (ctorStep s c)
    rw [h1, h2]
    unfold ctorStep
    split <;> simp

theorem clearIpcLoop_big_cores (s : Sched) (t : Int) (l : List Nat) :
    (clearIpcLoop s t l).m_num_big_cores = s.m_num_big_cores := by
  induction l with
  | nil => simp [clearIpcLoop]
  | cons c l ih =>
    unfold clearIpcLoop
    split
    · rfl
    · exact ih

theorem threadExit_keeps_big (rng_next : Nat → Nat × Nat) (s : Sched) (thread_id : Int)
    (hbig : ∀ t, s.m_thread_isbig t = true →
      s.affinity t = s.m_mask_big ∧ 0 ≤ t ∧ t < (s.numThreads : Int))
    (hcard : s.m_num_big_cores = s.m_mask_big.card) :
    (∀ t, (threadExit rng_next s thread_id).m_thread_isbig t = true →
        (threadExit rng_next s thread_id).affinity t
          = (threadExit rng_next s thread_id).m_mask_big
        ∧ 0 ≤ t ∧ t < ((threadExit rng_next s thread_id).numThreads : Int))
    ∧ (threadExit rng_next s thread_id).m_num_big_cores
        = (threadExit rng_next s thread_id).m_mask_big.card := by
  obtain ⟨f1, f2, f3, f4, f5, f6⟩ := clearIpcLoop_frame s thread_id (List.range s.appCores)
  have f7 := clearIpcLoop_big_cores s thread_id (List.range s.appCores)
  have hbig0 : ∀ t, (clearIpcLoop s thread_id (List.range s.appCores)).m_thread_isbig t = true →
      (clearIpcLoop s thread_id (List.range s.appCores)).affinity t
        = (clearIpcLoop s thread_id (List.range s.appCores)).m_mask_big
      ∧ 0 ≤ t
      ∧ t < ((clearIpcLoop s thread_id (List.range s.appCores)).numThreads : Int) := by
    rw [f1, f3, f5, f6]
    exact hbig
  have hcard0 : (clearIpcLoop s thread_id (List.range s.appCores)).m_num_big_cores
      = (clearIpcLoop s thread_id (List.range s.appCores)).m_mask_big.card := by
    rw [f6, f7]
    exact hcard
  unfold threadExit
  split_ifs
  · by_cases hE : eligible (clearIpcLoop s thread_id (List.range s.appCores)) = []
    · have hp : pickBigThread rng_next (clearIpcLoop s thread_id (List.range s.appCores))
          = clearIpcLoop s thread_id (List.range s.appCores) := by
        unfold pickBigThread
        rw [hE, if_neg (by simp)]
      rw [hp]
      exact ⟨hbig0, hcard0⟩
    · obtain ⟨_, p, _, hmem, hpick⟩ := pickBigThread_spec rng_next _ hE
      rw [hpick]
      refine ⟨?_, hcard0⟩
      intro t ht
      by_cases htp : t = p
      · subst htp
        have h1 := (mem_eligible (clearIpcLoop s thread_id (List.range s.appCores)) t hmem).1
        have h2 := mem_eligible_lt (clearIpcLoop s thread_id (List.range s.appCores)) t hmem
        exact ⟨by simp, h1, h2⟩
      · simp only [Function.update_noteq htp] at ht ⊢
        exact hbig0 t ht
  · exact ⟨hbig0, hcard0⟩

/-- What holds in every reachable state: the occupancy is as the base class keeps it, every
thread flagged big has the big mask as its affinity and is one of the threads created so
far, and `m_num_big_cores` is the size of the big mask. -/
theorem reachable_inv (s : Sched) (hr : Reachable s) :
    BaseOK s
    ∧ (∀ t, s.m_thread_isbig t = true →
        s.affinity t = s.m_mask_big ∧ 0 ≤ t ∧ t < (s.numThreads : Int))
    ∧ s.m_num_big_cores = s.m_mask_big.card := by
  induction hr with
  | construct n tag q seed =>
    obtain ⟨_, hrun, _, hflag⟩ := ctor_fold_frame (List.range n) (ctorInit n tag q seed)
    obtain ⟨hisr, _⟩ := ctor_fold_base (List.range n) (ctorInit n tag q seed)
    obtain ⟨hb, _, hn⟩ := ctor_fold_masks tag q seed n n
    refine ⟨⟨?_, ?_⟩, ?_, ?_⟩
    · intro t ht
      have : (SchedulerBigSmall n tag q seed).isRunning t = false := by
        show (List.foldl ctorStep _ _).isRunning t = false
        rw [hisr]
        rfl
      rw [this] at ht
      exact absurd ht (by decide)
    · intro c _ hc
      exact absurd (ctor_running n tag q seed c) hc
    · intro t ht
      have : (SchedulerBigSmall n tag q seed).m_thread_isbig t = false := by
        show (List.foldl ctorStep _ _).m_thread_isbig t = false
        rw [hflag]
        rfl
      rw [this] at ht
      exact absurd ht (by decide)
    · show (List.foldl ctorStep _ _).m_num_big_cores = (List.foldl ctorStep _ _).m_mask_big.card
      rw [hn, hb]
  | create s s1 s2 fuel _ hplace hbase ih =>
    obtain ⟨_, hbig, hcard⟩ := ih
    obtain ⟨heq, hok⟩ := hbase
    have hs1 : ∃ c, s1 = { s with
        m_next_core := getNextCore s.appCores c
        affinity := Function.update s.affinity (s.numThreads : Int) {c} } := by
      unfold threadSetInitialAffinity at hplace
      cases hg : getFreeCore s fuel s.m_next_core with
      | done c =>
        rw [hg] at hplace
        simp only [Run.done.injEq] at hplace
        exact ⟨c, hplace.symm⟩
      | fault => rw [hg] at hplace; simp at hplace
      | fuelOut => rw [hg] at hplace; simp at hplace
    obtain ⟨c, rfl⟩ := hs1
    have hflag : s2.m_thread_isbig = s.m_thread_isbig := by rw [heq]
    have haff : s2.affinity = Function.update s.affinity (s.numThreads : Int) {c} := by rw [heq]
    have hmask : s2.m_mask_big = s.m_mask_big := by rw [heq]
    have hnum : s2.m_num_big_cores = s.m_num_big_cores := by rw [heq]
    have hthr : s2.numThreads = s.numThreads + 1 := by rw [heq]
    refine ⟨hok, ?_, by rw [hnum, hmask]; exact hcard⟩
    intro t ht
    rw [hflag] at ht
    obtain ⟨h1, h2, h3⟩ := hbig t ht
    have hne : t ≠ (s.numThreads : Int) := by omega
    rw [haff, hmask, hthr, Function.update_noteq hne]
    exact ⟨h1, h2, by push_cast; omega⟩
  | tick s s1 s2 tel time _ hper hbase ih =>
    obtain ⟨hok0, hbig, hcard⟩ := ih
    obtain ⟨heq, hok⟩ := hbase
    have hflag : s2.m_thread_isbig = s1.m_thread_isbig := by rw [heq]
    have haff : s2.affinity = s1.affinity := by rw [heq]
    have hmask : s2.m_mask_big = s1.m_mask_big := by rw [heq]
    have hnum : s2.m_num_big_cores = s1.m_num_big_cores := by rw [heq]
    have hthr : s2.numThreads = s1.numThreads := by rw [heq]
    have key : (∀ t, s1.m_thread_isbig t = true →
          s1.affinity t = s1.m_mask_big ∧ 0 ≤ t ∧ t < (s1.numThreads : Int))
        ∧ s1.m_num_big_cores = s1.m_mask_big.card := by
      unfold periodic at hper
      split_ifs at hper with hgate
      · cases hs : sampleCores s tel with
        | none => rw [hs] at hper; simp at hper
        | some s0 =>
          rw [hs] at hper
          simp only at hper
          cases hd : decision s0 with
          | none => rw [hd] at hper; simp at hper
          | some d =>
            rw [hd] at hper
            simp only [Option.some.injEq] at hper
            obtain ⟨hframe, _⟩ := sampleCores_frame s s0 tel hs
            have hbig0 : ∀ t, s0.m_thread_isbig t = true →
                s0.affinity t = s0.m_mask_big ∧ 0 ≤ t ∧ t < (s0.numThreads : Int) := by
              rw [hframe]
              exact hbig
            have hcard0 : s0.m_num_big_cores = s0.m_mask_big.card := by
              rw [hframe]
              exact hcard
            have hcand : smallCandidate s0 ≠ INVALID_THREAD_ID →
                0 ≤ smallCandidate s0 ∧ smallCandidate s0 < (s0.numThreads : Int) := by
              intro hne
              rcases smallCandidate_on_core s0 with h1 | ⟨c, hc, h1⟩
              · exact absurd h1 hne
              · rw [h1] at hne ⊢
                rw [hframe] at hc hne ⊢
                exact hok0.2 c hc hne
            have hsmall := moveToSmall_keeps_big s0 (bigVictim s0) hbig0
            have hcandS : smallCandidate s0 ≠ INVALID_THREAD_ID →
                0 ≤ smallCandidate s0
                ∧ smallCandidate s0 < ((moveToSmall s0 (bigVictim s0)).numThreads : Int) := by
              intro hne
              have := hcand hne
              unfold moveToSmall
              split_ifs <;> exact this
            have hswap := moveToBig_keeps_big (moveToSmall s0 (bigVictim s0))
              (smallCandidate s0) hcandS hsmall
            have hmS : ∀ v, (moveToSmall s0 v).m_num_big_cores = (moveToSmall s0 v).m_mask_big.card := by
              intro v
              unfold moveToSmall
              split_ifs <;> exact hcard0
            have hmB : ∀ x p, x.m_num_big_cores = x.m_mask_big.card →
                (moveToBig x p).m_num_big_cores = (moveToBig x p).m_mask_big.card := by
              intro x p hx
              unfold moveToBig
              split_ifs <;> exact hx
            rw [← hper]
            unfold decision at hd
            split_ifs at hd <;> simp only [Option.some.injEq] at hd <;> subst hd
            · exact ⟨hswap, hmB _ _ (hmS _)⟩
            · exact ⟨hsmall, hmS _⟩
            · exact ⟨hbig0, hcard0⟩
            · exact ⟨hbig0, hcard0⟩
      · simp only [Option.some.injEq] at hper
        rw [← hper]
        exact ⟨hbig, hcard⟩
    refine ⟨hok, ?_, by rw [hnum, hmask]; exact key.2⟩
    intro t ht
    rw [hflag] at ht
    rw [haff, hmask, hthr]
    exact key.1 t ht
  | exit s s2 rng_next thread_id _ hbase ih =>
    obtain ⟨_, hbig, hcard⟩ := ih
    obtain ⟨heq, hok⟩ := hbase
    have hflag : s2.m_thread_isbig = (threadExit rng_next s thread_id).m_thread_isbig := by
      rw [heq]
    have haff : s2.affinity = (threadExit rng_next s thread_id).affinity := by rw [heq]
    have hmask : s2.m_mask_big = (threadExit rng_next s thread_id).m_mask_big := by rw [heq]
    have hnum : s2.m_num_big_cores = (threadExit rng_next s thread_id).m_num_big_cores := by
      rw [heq]
    have hthr : s2.numThreads = (threadExit rng_next s thread_id).numThreads := by rw [heq]
    have key : (∀ t, (threadExit rng_next s thread_id).m_thread_isbig t = true →
          (threadExit rng_next s thread_id).affinity t
            = (threadExit rng_next s thread_id).m_mask_big
          ∧ 0 ≤ t ∧ t < ((threadExit rng_next s thread_id).numThreads : Int))
        ∧ (threadExit rng_next s thread_id).m_num_big_cores
            = (threadExit rng_next s thread_id).m_mask_big.card :=
      threadExit_keeps_big rng_next s thread_id hbig hcard
    refine ⟨hok, ?_, by rw [hnum, hmask]; exact key.2⟩
    intro t ht
    rw [hflag] at ht
    rw [haff, hmask, hthr]
    exact key.1 t ht

/-- C11: in every state reachable from construction by thread creations, periodic ticks and
thread exits, each completed by the base class, for every tagging of the cores, the number
of running threads whose class flag is big is at most `m_num_big_cores`; and every running
thread whose class flag is big is counted, its id being below `numThreads`.  Each such
thread has the big mask as its affinity, so it runs on a core of the big mask, and no two
threads run on one core. -/
theorem big_status_bounded (s : Sched) (hr : Reachable s) :
    (bigRunning s).card ≤ s.m_num_big_cores
    ∧ ∀ t : Int, s.isRunning t = true → s.m_thread_isbig t = true →
        ∃ n, n ∈ bigRunning s ∧ (n : Int) = t := by
  obtain ⟨⟨hrun, _⟩, hbig, hcard⟩ := reachable_inv s hr
  refine ⟨?_, ?_⟩
  · rw [hcard]
    have hcore : ∀ n, n ∈ bigRunning s →
        ∃ c, s.m_core_thread_running c = (n : Int) ∧ c ∈ s.m_mask_big := by
      intro n hn
      unfold bigRunning at hn
      simp only [Finset.mem_filter, Finset.mem_range] at hn
      obtain ⟨c, _, hc1, hc2⟩ := hrun (n : Int) hn.2.1
      exact ⟨c, hc1, by rw [← (hbig (n : Int) hn.2.2).1]; exact hc2⟩
    have hex : ∀ n, ∃ c, n ∈ bigRunning s →
        s.m_core_thread_running c = (n : Int) ∧ c ∈ s.m_mask_big := by
      intro n
      by_cases hn : n ∈ bigRunning s
      · obtain ⟨c, hc⟩ := hcore n hn
        exact ⟨c, fun _ => hc⟩
      · exact ⟨0, fun h => absurd h hn⟩
    choose f hf using hex
    refine Finset.card_le_card_of_injOn f (fun n hn => (hf n hn).2) ?_
    intro n1 hn1 n2 hn2 heq
    have e1 := (hf n1 (Finset.mem_coe.mp hn1)).1
    have e2 := (hf n2 (Finset.mem_coe.mp hn2)).1
    rw [heq] at e1
    have : (n1 : Int) = (n2 : Int) := by rw [← e1, ← e2]
    exact_mod_cast this
  · intro t ht hflag
    obtain ⟨_, h0, hlt⟩ := hbig t hflag
    refine ⟨t.toNat, ?_, Int.toNat_of_nonneg h0⟩
    unfold bigRunning
    simp only [Finset.mem_filter, Finset.mem_range]
    rw [Int.toNat_of_nonneg h0]
    exact ⟨by omega, ht, hflag⟩

/-! ## A reachable state with a promoted thread -/

theorem startedOn_eq (s : Sched) (t c : Nat) :
    startedOn s t c =
      { ({ ({ s with
              m_next_core := getNextCore s.appCores c
              affinity := Function.update s.affinity (t : Int) {c} } : Sched) with
            numThreads := s.numThreads + 1 } : Sched) with
        m_core_thread_running := (startedOn s t c).m_core_thread_running
        isRunning := (startedOn s t c).isRunning } := rfl

theorem started0_baseOK : BaseOK (startedOn fresh4 0 0) := by
  refine ⟨?_, by decide⟩
  intro t ht
  have h : 0 ≤ t ∧ t ≤ 0 := of_decide_eq_true ht
  obtain ⟨h1, h2⟩ := h
  interval_cases t
  exact ⟨0, by decide, rfl, by decide⟩

theorem started1_baseOK : BaseOK (startedOn (startedOn fresh4 0 0) 1 1) := by
  refine ⟨?_, by decide⟩
  intro t ht
  have h : 0 ≤ t ∧ t ≤ 1 := of_decide_eq_true ht
  obtain ⟨h1, h2⟩ := h
  interval_cases t
  · exact ⟨0, by decide, rfl, by decide⟩
  · exact ⟨1, by decide, rfl, by decide⟩

theorem threeStarted_baseOK : BaseOK threeStarted := by
  refine ⟨?_, by decide⟩
  intro t ht
  have h : 0 ≤ t ∧ t ≤ 2 := of_decide_eq_true ht
  obtain ⟨h1, h2⟩ := h
  interval_cases t
  · exact ⟨0, by decide, rfl, by decide⟩
  · exact ⟨1, by decide, rfl, by decide⟩
  · exact ⟨2, by decide, rfl, by decide⟩

theorem threeStarted_reachable : Reachable threeStarted :=
  Reachable.create (startedOn (startedOn fresh4 0 0) 1 1) _ threeStarted 1
    (Reachable.create (startedOn fresh4 0 0) _ (startedOn (startedOn fresh4 0 0) 1 1) 1
      (Reachable.create fresh4 _ (startedOn fresh4 0 0) 1 (Reachable.construct 4 tagsA 1000 0)
        rfl ⟨startedOn_eq fresh4 0 0, started0_baseOK⟩)
      rfl ⟨startedOn_eq (startedOn fresh4 0 0) 1 1, started1_baseOK⟩)
    rfl ⟨startedOn_eq (startedOn (startedOn fresh4 0 0) 1 1) 2 2, threeStarted_baseOK⟩

theorem afterTickA_step :
    periodic threeStarted (readings 1000 0 0 0) 2000 = some afterTickA := by
  have hpol : policy (sampled threeStarted (readings 1000 0 0 0))
      = sampled threeStarted (readings 1000 0 0 0) := by
    refine policy_all_zero _ (by decide) ?_ (by decide)
    intro d hd
    have hd4 : d < 4 := hd
    interval_cases d
    · exact mean_first_sample
    · exact mean_first_sample
    · exact mean_first_sample
    · rfl
  rw [periodic_open threeStarted (sampled threeStarted (readings 1000 0 0 0))
    (readings 1000 0 0 0) 2000 (by decide) (by decide) rfl, hpol]
  rfl

theorem mean_450 : divFloat (intToFloat (0 + 900)) (intToFloat (0 + 1 + 1)) = 450 := by
  have h := divFloat_exact 900 2 450 (by decide) (by decide) (by decide) (by decide)
    (by decide)
  simpa using h

theorem mean_300 : divFloat (intToFloat (0 + 900 + 0)) (intToFloat (0 + 1 + 1 + 1)) = 300 := by
  have h := divFloat_exact 900 3 300 (by decide) (by decide) (by decide) (by decide)
    (by decide)
  simpa using h

theorem mean_300_small :
    divFloat (intToFloat (0 + 300 + 600)) (intToFloat (0 + 1 + 1 + 1)) = 300 := by
  have h := divFloat_exact 900 3 300 (by decide) (by decide) (by decide) (by decide)
    (by decide)
  simpa using h

theorem float_900 : intToFloat 900 = 900 := by
  rw [intToFloat_exact 900 (by decide)]
  norm_num

theorem float_600 : intToFloat 600 = 600 := by
  rw [intToFloat_exact 600 (by decide)]
  norm_num

theorem afterTickB_step :
    periodic afterTickA (readings 2000 900 900 300) 4000 = some afterTickB := by
  have hipc : ((sampled afterTickA (readings 2000 900 900 300)).core_info_list 0).ipc = 900 :=
    rfl
  have hmean : (sampled afterTickA (readings 2000 900 900 300)).stat_mean 0 = 450 := mean_450
  have hpol : policy (sampled afterTickA (readings 2000 900 900 300))
      = sampled afterTickA (readings 2000 900 900 300) := by
    rw [policy_selected _ 0 2 (by decide) (by decide) (by decide) (by decide), hipc, hmean,
      float_900, if_neg (by norm_num)]
  rw [periodic_open afterTickA (sampled afterTickA (readings 2000 900 900 300))
    (readings 2000 900 900 300) 4000 (by decide) (by decide) rfl, hpol]
  rfl

theorem afterTickC_step :
    periodic afterTickB (readings 3000 900 1800 900) 6000 = some afterTickC := by
  have hipc0 : ((sampled afterTickB (readings 3000 900 1800 900)).core_info_list 0).ipc = 0 :=
    rfl
  have hipc2 : ((sampled afterTickB (readings 3000 900 1800 900)).core_info_list 2).ipc = 600 :=
    rfl
  have hmean0 : (sampled afterTickB (readings 3000 900 1800 900)).stat_mean 0 = 300 := mean_300
  have hmean2 : (sampled afterTickB (readings 3000 900 1800 900)).stat_mean 2 = 300 :=
    mean_300_small
  have hpol : policy (sampled afterTickB (readings 3000 900 1800 900))
      = moveToBig (moveToSmall (sampled afterTickB (readings 3000 900 1800 900)) 0) 2 := by
    rw [policy_selected _ 0 2 (by decide) (by decide) (by decide) (by decide), hipc0, hipc2,
      hmean0, hmean2, float_0, float_600, if_pos (by norm_num), if_pos (by norm_num)]
    rfl
  rw [periodic_open afterTickB (sampled afterTickB (readings 3000 900 1800 900))
    (readings 3000 900 1800 900) 6000 (by decide) (by decide) rfl, hpol]
  rfl

theorem afterTickA_baseOK : BaseOK afterTickA := by
  refine ⟨?_, by decide⟩
  intro t ht
  have h : 0 ≤ t ∧ t ≤ 2 := of_decide_eq_true ht
  obtain ⟨h1, h2⟩ := h
  interval_cases t
  · exact ⟨0, by decide, rfl, by decide⟩
  · exact ⟨1, by decide, rfl, by decide⟩
  · exact ⟨2, by decide, rfl, by decide⟩

theorem afterTickB_baseOK : BaseOK afterTickB := by
  refine ⟨?_, by decide⟩
  intro t ht
  have h : 0 ≤ t ∧ t ≤ 2 := of_decide_eq_true ht
  obtain ⟨h1, h2⟩ := h
  interval_cases t
  · exact ⟨0, by decide, rfl, by decide⟩
  · exact ⟨1, by decide, rfl, by decide⟩
  · exact ⟨2, by decide, rfl, by decide⟩

theorem afterSwap_baseOK : BaseOK afterSwap := by
  refine ⟨?_, by decide⟩
  intro t ht
  have h : 0 ≤ t ∧ t ≤ 2 := of_decide_eq_true ht
  obtain ⟨h1, h2⟩ := h
  interval_cases t
  · exact ⟨2, by decide, rfl, by decide⟩
  · exact ⟨1, by decide, rfl, by decide⟩
  · exact ⟨0, by decide, rfl, by decide⟩

/-- The state `afterSwap` is reached by three creations and three ticks; in it thread 2 runs
on big core 0 with class flag big, and it is the only running thread flagged big. -/
theorem afterSwap_reachable :
    Reachable afterSwap
    ∧ afterSwap.m_core_thread_running 0 = 2
    ∧ afterSwap.hasTagBig 0 = true
    ∧ afterSwap.isRunning 2 = true
    ∧ afterSwap.m_thread_isbig 2 = true
    ∧ afterSwap.m_thread_isbig 0 = false
    ∧ afterSwap.m_thread_isbig 1 = false
    ∧ afterSwap.m_num_big_cores = 2 :=
  ⟨Reachable.tick afterTickB afterTickC afterSwap (readings 3000 900 1800 900) 6000
      (Reachable.tick afterTickA afterTickB afterTickB (readings 2000 900 900 300) 4000
        (Reachable.tick threeStarted afterTickA afterTickA (readings 1000 0 0 0) 2000
          threeStarted_reachable afterTickA_step ⟨rfl, afterTickA_baseOK⟩)
        afterTickB_step ⟨rfl, afterTickB_baseOK⟩)
      afterTickC_step ⟨rfl, afterSwap_baseOK⟩,
    rfl, rfl, rfl, rfl, rfl, rfl, rfl⟩

/-- The bound of C11 in the state reached by creating three threads on the fresh four cores
(two of them big) and three ticks, the last of which swaps thread 0 and thread 2. -/
theorem big_status_bounded_witness :
    (bigRunning afterSwap).card ≤ afterSwap.m_num_big_cores
    ∧ ∀ t : Int, afterSwap.isRunning t = true → afterSwap.m_thread_isbig t = true →
        ∃ n, n ∈ bigRunning afterSwap ∧ (n : Int) = t :=
  big_status_bounded afterSwap afterSwap_reachable.1

end BigSmall
